import Mathlib

/-!
Verification of the STRETCHER audio engine (AudioTrack / MainComponent,
final revision in src/unnamed/part_001, lines 4940-6950).

The C++ code is shallowly embedded over exact rationals: every `double`
becomes a `ℚ`, every `int` becomes a `ℤ` (C-style casts from `double` to
`int` truncate toward zero, modelled by `cppInt`), and sample buffers become
total functions `ℤ → ℤ → ℚ` together with their channel/frame counts.
The external SoundTouch time-stretch primitive (spec section 6: an opaque
collaborator with put/receive/clear) is modelled by an explicit buffered
state plus an arbitrary oracle for `receiveSamples`, universally quantified
in the theorems.  `sin` inside the metronome click is likewise abstracted
as an oracle, since no property here depends on the click waveform.
-/

/-! ## Embedded definitions (translated from the source) -/

/-- C-style cast from `double` to `int`: truncation toward zero. -/
def cppInt (q : ℚ) : ℤ := if 0 ≤ q then ⌊q⌋ else -⌊-q⌋

/-- juce::jlimit lower upper value. -/
def cppClamp (lo hi v : ℚ) : ℚ := if v < lo then lo else if hi < v then hi else v

/-- Octave correction, first loop: `while (bpm < 70.0 && bpm > 0.0) bpm *= 2.0;`. -/
def octUp (b : ℚ) : ℚ :=
  if h : 0 < b ∧ b < 70 then octUp (2 * b) else b
termination_by (⌈(70:ℚ) / b⌉).toNat
decreasing_by
  have hb : 0 < b := h.1
  have hlt : b < 70 := h.2
  have h1 : (1:ℚ) < 70 / b := (one_lt_div hb).2 hlt
  have hc : 2 ≤ ⌈(70:ℚ) / b⌉ := by
    have := Int.lt_ceil.mpr (by exact_mod_cast h1 : ((1:ℤ):ℚ) < 70 / b)
    omega
  have hkey : ⌈(70:ℚ) / (2 * b)⌉ ≤ ⌈(70:ℚ) / b⌉ - 1 := by
    apply Int.ceil_le.2
    have hhalf : (70:ℚ) / (2 * b) = (70 / b) / 2 := by
      field_simp
      ring
    rw [hhalf]
    have hle : (70:ℚ) / b ≤ (⌈(70:ℚ) / b⌉ : ℚ) := Int.le_ceil _
    have h2 : ((⌈(70:ℚ) / b⌉ : ℚ)) / 2 ≤ (⌈(70:ℚ) / b⌉ : ℚ) - 1 := by
      have : ((2:ℚ)) ≤ (⌈(70:ℚ) / b⌉ : ℚ) := by exact_mod_cast hc
      linarith
    push_cast
    linarith
  omega

/-- Octave correction, second loop: `while (bpm > 180.0) bpm /= 2.0;`. -/
def octDown (b : ℚ) : ℚ :=
  if h : 180 < b then octDown (b / 2) else b
termination_by (⌈b / 180⌉).toNat
decreasing_by
  have h1 : (1:ℚ) < b / 180 := (one_lt_div (by norm_num)).2 h
  have hc : 2 ≤ ⌈b / 180⌉ := by
    have := Int.lt_ceil.mpr (by exact_mod_cast h1 : ((1:ℤ):ℚ) < b / 180)
    omega
  have hkey : ⌈b / 2 / 180⌉ ≤ ⌈b / 180⌉ - 1 := by
    apply Int.ceil_le.2
    have hhalf : b / 2 / 180 = (b / 180) / 2 := by ring
    rw [hhalf]
    have hle : b / 180 ≤ (⌈b / 180⌉ : ℚ) := Int.le_ceil _
    have h2 : ((⌈b / 180⌉ : ℚ)) / 2 ≤ (⌈b / 180⌉ : ℚ) - 1 := by
      have : ((2:ℚ)) ≤ (⌈b / 180⌉ : ℚ) := by exact_mod_cast hc
      linarith
    push_cast
    linarith
  omega

/-- Octave correction as applied after both BPM candidate computations. -/
def octaveCorrect (b : ℚ) : ℚ := octDown (octUp b)

/-- std::max_element over a non-empty vector (0 for the empty one, which the
code guards against). -/
def listMax : List ℚ → ℚ
  | [] => 0
  | x :: xs => xs.foldl max x

/-- Decoded multi-channel sample buffer (juce::AudioBuffer<float>): channel
count, frame count, and the sample data as a total function. -/
structure AudioBuffer where
  numChannels : ℕ
  numSamples : ℕ
  data : ℤ → ℤ → ℚ

/-- Number of analysis frames produced by
`for (pos = 0; pos < numSamples - frameSize; pos += hopSize)`
with frameSize = 1024 and hopSize = 512 (both `int`s, so the bound is exact
integer arithmetic and negative when the buffer is short). -/
def numFrames (n : ℕ) : ℕ := if n ≤ 1024 then 0 else ((n - 1024) + 511) / 512

/-- AudioTrack::calculateOnsetStrength, inner per-bin magnitude:
channel-averaged absolute amplitude at index pos+bin (the `if` mirrors the
bounds check in the source). -/
def spectrumBin (buf : AudioBuffer) (pos bin : ℕ) : ℚ :=
  (if pos + bin < buf.numSamples then
    ∑ ch ∈ Finset.range buf.numChannels, |buf.data ch (pos + bin)|
   else 0) / buf.numChannels

/-- AudioTrack::calculateOnsetStrength, one frame's spectral flux.
`prevSpectrum` of frame k is the spectrum of frame k-1 (all zeros for k = 0,
matching the initial `prevSpectrum(frameSize/2, 0.0f)`). -/
def onsetFlux (buf : AudioBuffer) (k : ℕ) : ℚ :=
  ∑ bin ∈ Finset.range 512,
    max 0 (spectrumBin buf (k * 512) bin -
      (if k = 0 then 0 else spectrumBin buf ((k - 1) * 512) bin))

/-- AudioTrack::calculateOnsetStrength: the full onset-strength series. -/
def onsetSeries (buf : AudioBuffer) : List ℚ :=
  (List.range (numFrames buf.numSamples)).map (onsetFlux buf)

/-- AudioTrack::detectBPMFromOnsets, peak-picking stage: local maxima above
0.3 x the series maximum, converted to times `i * 512 / sampleRate`. -/
def onsetTimes (buf : AudioBuffer) (sampleRate : ℚ) : List ℚ :=
  let s := onsetSeries buf
  let maxOnset := listMax s
  let thr := maxOnset * (3/10)
  ((List.range s.length).filter (fun i =>
      decide (1 ≤ i) && decide (i + 1 < s.length) &&
      decide (thr < s.getD i 0) &&
      decide (s.getD (i-1) 0 < s.getD i 0) &&
      decide (s.getD (i+1) 0 < s.getD i 0))).map
    (fun i => (i * 512 : ℚ) / sampleRate)

/-- AudioTrack::findBestBPMCandidate, interval histogram: count of the run of
consecutive sorted intervals within 0.05 of element i (the inner loop breaks
at the first element outside tolerance). -/
def intervalCount (l : List ℚ) (i : ℕ) : ℕ :=
  1 + ((l.drop (i+1)).takeWhile (fun x => decide (|x - l.getD i 0| ≤ 1/20))).length

/-- AudioTrack::findBestBPMCandidate, histogram scan: fold over indices with
state (maxCount, bestInterval), updating on strictly greater count. -/
def bestIntervalOf (l : List ℚ) : ℕ × ℚ :=
  (List.range l.length).foldl
    (fun st i => if st.1 < intervalCount l i then (intervalCount l i, l.getD i 0) else st)
    (0, 0)

/-- AudioTrack::findBestBPMCandidate (part_001 lines 5111-5173). -/
def findBestBPMCandidate (times : List ℚ) : ℚ :=
  if times.length < 4 then 120 else
  let intervals := ((times.zip (times.drop 1)).map (fun p => p.2 - p.1)).filter
    (fun d => decide ((1/10 : ℚ) < d) && decide (d < 2))
  if intervals.isEmpty then 120 else
  let sorted := intervals.insertionSort (· ≤ ·)
  let best := (bestIntervalOf sorted).2
  if 0 < best then octaveCorrect (60 / best) else 120

/-- AudioTrack::detectBPMFromOnsets (part_001 lines 5026-5062). -/
def detectBPMFromOnsets (buf : AudioBuffer) (sampleRate : ℚ) : ℚ :=
  if ¬ (0 < buf.numSamples) ∨ (buf.numSamples : ℤ) < cppInt sampleRate then 120 else
  if (onsetSeries buf).length < 10 then 120 else
  let times := onsetTimes buf sampleRate
  if times.length < 4 then 120 else
  findBestBPMCandidate times

/-- Mono downmix used by AudioTrack::detectBPMAutocorrelation. -/
def acMono (buf : AudioBuffer) (i : ℤ) : ℚ :=
  (∑ ch ∈ Finset.range buf.numChannels, buf.data ch i) / buf.numChannels

/-- AudioTrack::detectBPMAutocorrelation, one frame of the
energy-difference onset series (frame k at pos = k*512; the index guards
mirror the source's bounds checks). -/
def acSeriesAt (buf : AudioBuffer) (k : ℕ) : ℚ :=
  let pos : ℤ := k * 512
  let energy := ∑ i ∈ Finset.range 1024,
    (if pos + i < buf.numSamples then acMono buf (pos + i) * acMono buf (pos + i) else 0)
  let prevEnergy := ∑ i ∈ Finset.range 1024,
    (if 0 ≤ pos - 512 + i ∧ pos - 512 + i < buf.numSamples then
      acMono buf (pos - 512 + i) * acMono buf (pos - 512 + i) else 0)
  max 0 (energy - prevEnergy)

/-- AudioTrack::detectBPMAutocorrelation, correlation at one lag:
mean of products over the overlapping part of the series. -/
def acCorr (s : ℕ → ℚ) (size : ℕ) (lag : ℕ) : ℚ :=
  (∑ i ∈ Finset.range (size - lag), s i * s (i + lag)) / (size - lag : ℕ)

/-- AudioTrack::detectBPMAutocorrelation, lag scan: fold over
lag = minLag, minLag+1, ... while lag < min maxLag (size/2), with state
(bestCorr, bestLag), updating on strictly greater correlation (initial state
(0.0, minLag)). -/
def acScan (s : ℕ → ℚ) (size : ℕ) (minLag maxLag : ℤ) : ℚ × ℤ :=
  let bound := min maxLag ((size : ℤ) / 2)
  (List.range (bound - minLag).toNat).foldl
    (fun st i =>
      let lag := minLag + i
      let c := if 0 < (size : ℤ) - lag then acCorr s size (lag.toNat) else 0
      if 0 < (size : ℤ) - lag ∧ st.1 < c then (c, lag) else st)
    (0, minLag)

/-- AudioTrack::detectBPMAutocorrelation (part_001 lines 5175-5263). -/
def detectBPMAutocorrelation (buf : AudioBuffer) (sampleRate : ℚ) : ℚ :=
  if (buf.numSamples : ℤ) < cppInt sampleRate then 120 else
  let size := numFrames buf.numSamples
  if size < 10 then 120 else
  let minLag := cppInt (60 * sampleRate / (200 * 512))
  let maxLag := cppInt (60 * sampleRate / (60 * 512))
  let bestLag := (acScan (acSeriesAt buf) size minLag maxLag).2
  let beatInterval := (bestLag * 512 : ℚ) / sampleRate
  octaveCorrect (60 / beatInterval)

/-- getDurationInSeconds: numSamples / sampleRate when both positive. -/
def durationOf (n : ℕ) (sampleRate : ℚ) : ℚ :=
  if 0 < n ∧ 0 < sampleRate then (n : ℚ) / sampleRate else 0

/-- AudioTrack::detectBPMImproved (part_001 lines 5326-5358): pattern/duration
heuristic over beat counts 4, 8, 16, 32. -/
def detectBPMImproved (buf : AudioBuffer) (sampleRate : ℚ) : ℚ :=
  if ¬ (0 < buf.numSamples) then 120 else
  let duration := durationOf buf.numSamples sampleRate
  let possible := ([4, 8, 16, 32].map (fun b => (b * 60 : ℚ) / duration)).filter
    (fun b => decide ((60:ℚ) ≤ b) && decide (b ≤ 200))
  if possible.isEmpty then 120 else
  match possible.find? (fun b => decide ((65:ℚ) ≤ b) && decide (b ≤ 150)) with
  | some b => b
  | none => possible.headD 120

/-- Fallthrough step of loadAudioFile's BPM pipeline:
`if (detectedBPM < 60.0 || detectedBPM > 200.0) detectedBPM = next;`. -/
def fallbackIfOutOfRange (x y : ℚ) : ℚ := if x < 60 ∨ 200 < x then y else x

/-- BPM assigned by AudioTrack::loadAudioFile (part_001 lines 4995-5015):
onsets, then autocorrelation, then pattern heuristic, then 120. -/
def loadDetectedBPM (buf : AudioBuffer) (sampleRate : ℚ) : ℚ :=
  fallbackIfOutOfRange
    (fallbackIfOutOfRange
      (fallbackIfOutOfRange (detectBPMFromOnsets buf sampleRate)
        (detectBPMAutocorrelation buf sampleRate))
      (detectBPMImproved buf sampleRate))
    120

/-- A single-channel buffer of 5700 zero samples. -/
def silentBuf : AudioBuffer := ⟨1, 5700, fun _ _ => 0⟩

/-- State of the external SoundTouch time-stretch primitive: the configured
tempo ratio and the input samples currently buffered inside it.  `putSamples`
appends, `clear` discards; `receiveSamples` is external and is modelled by an
oracle (`Recv`) quantified in the theorems. -/
structure STState where
  tempo : ℚ
  pending : List ℚ

/-- soundTouch->putSamples. -/
def stPut (s : STState) (xs : List ℚ) : STState := { s with pending := s.pending ++ xs }

/-- soundTouch->clear. -/
def stClear (s : STState) : STState := { s with pending := [] }

/-- Oracle for soundTouch->receiveSamples(ptr, maxCount): given the engine
state and maxCount it yields (producedCount, interleaved output data, new
engine state). -/
def Recv : Type := STState → ℤ → ℕ × (ℕ → ℚ) × STState

/-- AudioTrack's mutable state (the fields the engine reads/writes). -/
structure Track where
  buf : AudioBuffer
  sampleRate : ℚ
  currentPosition : ℚ
  stretchRatio : ℚ
  detectedBPM : ℚ
  masterBPM : ℚ
  muted : Bool
  solo : Bool
  looping : Bool
  volume : ℚ
  hasCustomLoopRegion : Bool
  loopStartTime : ℚ
  loopEndTime : ℚ
  st : STState

/-- AudioTrack::isLoaded: audioBuffer.getNumSamples() > 0. -/
def isLoadedT (t : Track) : Bool := decide (0 < t.buf.numSamples)

/-- AudioTrack::getDurationInSeconds. -/
def durationT (t : Track) : ℚ := durationOf t.buf.numSamples t.sampleRate

/-- Loop bounds used by both playback paths: the custom region when set and
non-degenerate, else (0, duration). -/
def activeRegion (t : Track) : ℚ × ℚ :=
  if t.hasCustomLoopRegion ∧ t.loopStartTime < t.loopEndTime then
    (t.loopStartTime, t.loopEndTime)
  else (0, durationT t)

/-- AudioTrack::setStretchRatio (part_001 lines 5428-5437). -/
def setStretchRatioT (ratio : ℚ) (t : Track) : Track :=
  let newRatio := cppClamp (1/4) 4 ratio
  if 1/1000 < |newRatio - t.stretchRatio| then { t with stretchRatio := newRatio } else t

/-- AudioTrack::scaleStretchRatio (part_001 lines 5439-5450). -/
def scaleStretchRatioT (scaleFactor : ℚ) (t : Track) : Track :=
  let newRatio := cppClamp (1/4) 4 (t.stretchRatio * scaleFactor)
  if 1/1000 < |newRatio - t.stretchRatio| then { t with stretchRatio := newRatio } else t

/-- AudioTrack::setMasterBPM. -/
def setMasterBPMT (newMasterBPM : ℚ) (t : Track) : Track := { t with masterBPM := newMasterBPM }

/-- AudioTrack::autoSyncToMaster. -/
def autoSyncToMasterT (t : Track) : Track :=
  if 0 < t.detectedBPM ∧ 0 < t.masterBPM then
    setStretchRatioT (t.detectedBPM / t.masterBPM) t
  else t

/-- AudioTrack::setLoopRegion (part_001 lines 5724-5742). -/
def setLoopRegionT (startTime endTime : ℚ) (t : Track) : Track :=
  if 0 ≤ startTime ∧ startTime < endTime ∧ endTime ≤ durationT t then
    let t1 := { t with loopStartTime := startTime, loopEndTime := endTime,
                       hasCustomLoopRegion := true }
    if t.currentPosition < startTime ∨ endTime < t.currentPosition then
      { t1 with currentPosition := startTime }
    else t1
  else t

/-- buffer.addFrom(dstCh, dstStart, src, srcCh, srcStart, count, gain):
additive mix of `count` source frames into the destination channel. -/
def AudioBuffer.addFrom (dst : AudioBuffer) (dstCh dstStart : ℤ) (src : AudioBuffer)
    (srcCh srcStart count : ℤ) (gain : ℚ) : AudioBuffer :=
  { dst with data := fun ch i =>
      if ch = dstCh ∧ dstStart ≤ i ∧ i < dstStart + count then
        dst.data ch i + gain * src.data srcCh (srcStart + (i - dstStart))
      else dst.data ch i }

/-- buffer.addSample(ch, idx, v). -/
def AudioBuffer.addSample (dst : AudioBuffer) (ch idx : ℤ) (v : ℚ) : AudioBuffer :=
  { dst with data := fun c i => if c = ch ∧ i = idx then dst.data c i + v else dst.data c i }

/-- Result of one block-render call.  Besides the updated track and output
buffer it records ghost observations of the call, read off the same code
path: the source frame indices read, the frames fed to SoundTouch, the
position the advance was applied to, the mapped (post-wrap) source index,
and the active region bounds in samples. -/
structure RenderResult where
  track : Track
  out : AudioBuffer
  reads : List ℤ
  fedCount : ℤ
  posBase : ℚ
  curIdx : ℤ
  regionStartSample : ℤ
  regionEndSample : ℤ

/-- A call that renders nothing and leaves all state untouched. -/
def mkNoop (t : Track) (out : AudioBuffer) : RenderResult :=
  ⟨t, out, [], 0, t.currentPosition, 0, 0, 0⟩

/-- The additive mixing performed by processDirectPlayback: `addFrom` per
processed channel, plus the mono-to-stereo duplication. -/
def directMix (srcBuf : AudioBuffer) (inCh outCh chans : ℕ) (startSample cur count : ℤ)
    (volume : ℚ) (out : AudioBuffer) : AudioBuffer :=
  let out1 := (List.range chans).foldl
      (fun b ch => b.addFrom ch startSample srcBuf ch cur count volume) out
  if inCh = 1 ∧ 2 ≤ outCh then
    out1.addFrom 1 startSample srcBuf 0 cur count volume
  else out1

/-- The interleaved input block fed to soundTouch->putSamples: frame j/inCh,
channel j%inCh, starting at source index cur (for inCh = 1 this is the plain
mono block the code passes directly). -/
def interleaveFeed (srcBuf : AudioBuffer) (inCh : ℕ) (cur count : ℤ) : List ℚ :=
  (List.range (count.toNat * inCh)).map
    (fun j => srcBuf.data (j % inCh : ℕ) (cur + (j / inCh : ℕ)))

/-- The additive mixing performed by processWithSoundTouch on the received
samples: per-sample addSample calls, duplicating mono into channel 1 when the
output is stereo, reading interleaved data otherwise. -/
def stretchMix (inCh outCh chans : ℕ) (startSample : ℤ) (mixCount : ℕ) (vals : ℕ → ℚ)
    (volume : ℚ) (out : AudioBuffer) : AudioBuffer :=
  if inCh = 1 then
    (List.range mixCount).foldl (fun b (i : ℕ) =>
      let b1 := b.addSample 0 (startSample + (i : ℤ)) (vals i * volume)
      if 2 ≤ outCh then b1.addSample 1 (startSample + (i : ℤ)) (vals i * volume)
      else b1) out
  else
    (List.range mixCount).foldl (fun b (i : ℕ) =>
      (List.range chans).foldl (fun b2 (ch : ℕ) =>
        b2.addSample (ch : ℤ) (startSample + (i : ℤ))
          (vals (i * inCh + ch) * volume)) b) out

/-- The pre-render wrap handling of processDirectPlayback: when looping,
clamp a mapped index below the region start to the region start, and wrap an
index at/past the region end modulo the region length (updating the position
accordingly); otherwise leave index and position alone. -/
def preWrapDirect (t : Track) (loopStartSample loopEndSample loopLen cur0 : ℤ)
    (loopStart : ℚ) : ℤ × ℚ :=
  if t.looping then
    if cur0 < loopStartSample then (loopStartSample, loopStart)
    else if loopEndSample ≤ cur0 then
      let c := loopStartSample + (cur0 - loopStartSample) % loopLen
      (c, (c : ℚ) / t.sampleRate)
    else (cur0, t.currentPosition)
  else (cur0, t.currentPosition)

/-- The pre-render wrap handling of processWithSoundTouch: as in the direct
path, but each wrap also clears the stretch engine. -/
def preWrapST (t : Track) (st0 : STState) (loopStartSample loopEndSample loopLen cur0 : ℤ)
    (loopStart : ℚ) : ℤ × ℚ × STState :=
  if t.looping then
    if cur0 < loopStartSample then (loopStartSample, loopStart, stClear st0)
    else if loopEndSample ≤ cur0 then
      let c := loopStartSample + (cur0 - loopStartSample) % loopLen
      (c, (c : ℚ) / t.sampleRate, stClear st0)
    else (cur0, t.currentPosition, st0)
  else (cur0, t.currentPosition, st0)

/-- AudioTrack::processDirectPlayback (part_001 lines 5520-5586). -/
def processDirectPlayback (t : Track) (out : AudioBuffer) (startSample n : ℤ) :
    RenderResult :=
  let inCh := t.buf.numChannels
  let outCh := out.numChannels
  let chans := min outCh inCh
  let N : ℤ := t.buf.numSamples
  let region := activeRegion t
  let loopStart := region.1
  let loopEnd := region.2
  let loopStartSample := cppInt (loopStart * t.sampleRate)
  let loopEndSample := min (cppInt (loopEnd * t.sampleRate)) N
  let loopLen := loopEndSample - loopStartSample
  if loopLen ≤ 0 then mkNoop t out else
  let cur0 := cppInt (t.currentPosition * t.sampleRate)
  if ¬ t.looping ∧ loopEndSample ≤ cur0 then mkNoop t out else
  let pre := preWrapDirect t loopStartSample loopEndSample loopLen cur0 loopStart
  let cur := pre.1
  let pos := pre.2
  let samplesToRead := min n (loopEndSample - cur)
  if samplesToRead ≤ 0 then mkNoop { t with currentPosition := pos } out else
  let out2 := directMix t.buf inCh outCh chans startSample cur samplesToRead t.volume out
  let pos1 := pos + (samplesToRead : ℚ) / t.sampleRate
  let pos2 := if t.looping ∧ loopEnd ≤ pos1 then loopStart else pos1
  { track := { t with currentPosition := pos2 }, out := out2,
    reads := (List.range samplesToRead.toNat).map (fun (i : ℕ) => cur + (i : ℤ)),
    fedCount := 0, posBase := pos, curIdx := cur,
    regionStartSample := loopStartSample, regionEndSample := loopEndSample }

/-- AudioTrack::processWithSoundTouch (part_001 lines 5588-5715). -/
def processWithSoundTouch (recv : Recv) (t : Track) (out : AudioBuffer)
    (startSample n : ℤ) : RenderResult :=
  let inCh := t.buf.numChannels
  let outCh := out.numChannels
  let chans := min outCh inCh
  let N : ℤ := t.buf.numSamples
  let st0 := { t.st with tempo := t.stretchRatio }
  let region := activeRegion t
  let loopStart := region.1
  let loopEnd := region.2
  let loopStartSample := cppInt (loopStart * t.sampleRate)
  let loopEndSample := min (cppInt (loopEnd * t.sampleRate)) N
  let loopLen := loopEndSample - loopStartSample
  if loopLen ≤ 0 then mkNoop { t with st := st0 } out else
  let cur0 := cppInt (t.currentPosition * t.sampleRate)
  if ¬ t.looping ∧ loopEndSample ≤ cur0 then mkNoop { t with st := st0 } out else
  let pre := preWrapST t st0 loopStartSample loopEndSample loopLen cur0 loopStart
  let cur := pre.1
  let pos := pre.2.1
  let st1 := pre.2.2
  let samplesToRead := min (n * 2) (loopEndSample - cur)
  if samplesToRead ≤ 0 then mkNoop { t with currentPosition := pos, st := st1 } out else
  let st2 := stPut st1 (interleaveFeed t.buf inCh cur samplesToRead)
  let rec0 := recv st2 n
  let received := rec0.1
  let vals := rec0.2.1
  let st3 := rec0.2.2
  let mixCount := min (received : ℤ) n
  let out1 := stretchMix inCh outCh chans startSample mixCount.toNat vals t.volume out
  let pos1 := pos + (samplesToRead : ℚ) / t.sampleRate
  let wrapAfter := t.looping = true ∧ loopEnd ≤ pos1
  let pos2 := if wrapAfter then loopStart else pos1
  let st4 := if wrapAfter then stClear st3 else st3
  { track := { t with currentPosition := pos2, st := st4 }, out := out1,
    reads := (List.range samplesToRead.toNat).map (fun (i : ℕ) => cur + (i : ℤ)),
    fedCount := samplesToRead, posBase := pos, curIdx := cur,
    regionStartSample := loopStartSample, regionEndSample := loopEndSample }

/-- AudioTrack::processBlock (part_001 lines 5491-5518): guards, then mode
dispatch on `|stretchRatio - 1.0| < 0.02`. -/
def processBlock (recv : Recv) (t : Track) (out : AudioBuffer) (startSample n : ℤ) :
    RenderResult :=
  if ¬ (0 < t.buf.numSamples) ∨ t.muted = true ∨ n ≤ 0 ∨ startSample < 0 then
    mkNoop t out
  else if out.numChannels = 0 ∨ t.buf.numChannels = 0 ∨ t.buf.numSamples = 0 then
    mkNoop t out
  else if (out.numSamples : ℤ) < startSample + n then
    mkNoop t out
  else if |t.stretchRatio - 1| < 1/50 then
    processDirectPlayback t out startSample n
  else
    processWithSoundTouch recv t out startSample n

/-- An idle stretch-engine state. -/
def exST : STState := ⟨1, []⟩

/-- A mono source buffer of 10 samples. -/
def exBuf10 : AudioBuffer := ⟨1, 10, fun _ _ => 0⟩

/-- A freshly loaded track over `exBuf10` at 10 Hz (position 0, ratio 1,
looping on, no custom region). -/
def exTrack : Track :=
  ⟨exBuf10, 10, 0, 1, 120, 120, false, false, true, 1, false, 0, 0, exST⟩

/-- A stereo output buffer of 16 frames. -/
def exOut : AudioBuffer := ⟨2, 16, fun _ _ => 0⟩

/-- A receive oracle that produces nothing. -/
def exRecv : Recv := fun st _ => (0, fun _ => 0, st)

/-- The stretched track used by the C9 counterexample: ratio 2 (stretched
mode), position 0.6 s into a 1 s looping clip with no custom region. -/
def exTrack9 : Track := { exTrack with stretchRatio := 2, currentPosition := 3/5 }

/-- A second receive oracle (produces one sample) for the C9 witness. -/
def exRecvB : Recv := fun st _ => (1, fun _ => 5, st)

/-- The stretched track used by the C9 witness: position 0.2 s, no wrap. -/
def exTrackW : Track := { exTrack with stretchRatio := 2, currentPosition := 1/5 }

/-- One renderBlock call: the oracle for the stretch primitive, the output
buffer, startSample and frameCount. -/
def RenderCall : Type := Recv × AudioBuffer × ℤ × ℤ

/-- The track state after a sequence of renderBlock (processBlock) calls. -/
def applyCalls : List RenderCall → Track → Track
  | [], t => t
  | c :: cs, t => applyCalls cs (processBlock c.1 t c.2.1 c.2.2.1 c.2.2.2).track

/-- All source frame indices read by a sequence of renderBlock calls. -/
def seqReads : List RenderCall → Track → List ℤ
  | [], _ => []
  | c :: cs, t => (processBlock c.1 t c.2.1 c.2.2.1 c.2.2.2).reads ++
      seqReads cs (processBlock c.1 t c.2.1 c.2.2.1 c.2.2.2).track

/-- MainComponent's mutable state (the fields the engine reads/writes). -/
structure Session where
  tracks : List Track
  masterTempo : ℚ
  previousMasterTempo : ℚ
  isPlaying : Bool
  isRecording : Bool
  currentPlayPosition : ℚ
  metronomeEnabled : Bool
  metronomePhase : ℚ
  metronomeBeatInterval : ℚ
  lastBeatTime : ℚ
  metronomeVolume : ℚ
  autoSyncEnabled : Bool

/-- List.map with the element index passed to the function, starting at k
(models iterating the track array with an index / identifying a track by
pointer). -/
def mapWithIdxFrom (f : ℕ → Track → Track) : ℕ → List Track → List Track
  | _, [] => []
  | k, t :: ts => f k t :: mapWithIdxFrom f (k+1) ts

def mapWithIdx (f : ℕ → Track → Track) (l : List Track) : List Track :=
  mapWithIdxFrom f 0 l

/-- MainComponent::setTempo (part_001 lines 6692-6723): scale every loaded
track's stretchRatio by bpm / previousMasterTempo, shift the tempo pair,
update the metronome interval, and push the new master BPM to every track. -/
def setTempoS (bpm : ℚ) (s : Session) : Session :=
  let scaleFactor := bpm / s.previousMasterTempo
  let tracks1 := s.tracks.map (fun t => if isLoadedT t then scaleStretchRatioT scaleFactor t else t)
  let tracks2 := tracks1.map (setMasterBPMT bpm)
  { s with tracks := tracks2,
           previousMasterTempo := s.masterTempo,
           masterTempo := bpm,
           metronomeBeatInterval := 60 / bpm }

/-- MainComponent::setInitialMasterBPM (part_001 lines 6725-6755): set the
master tempo directly, force the defining track's stretchRatio to 1.0, and
push the new master BPM to every track (the defining track is identified by
pointer in the source; here by index). -/
def setInitialMasterBPMS (bpm : ℚ) (definingIdx : Option ℕ) (s : Session) : Session :=
  let tracks1 := mapWithIdx (fun j t =>
      if definingIdx = some j then setMasterBPMT bpm (setStretchRatioT 1 t)
      else setMasterBPMT bpm t) s.tracks
  { s with tracks := tracks1,
           previousMasterTempo := s.masterTempo,
           masterTempo := bpm,
           metronomeBeatInterval := 60 / bpm }

/-- A track value used only as the (never-read) default of list indexing. -/
def defaultTrack : Track :=
  ⟨⟨0, 0, fun _ _ => 0⟩, 0, 0, 1, 0, 120, false, false, true, 1, false, 0, 0, ⟨1, []⟩⟩

/-- Indices of loaded tracks, in iteration order (MainComponent::onTrackLoaded
counts these and keeps a pointer to the last one). -/
def loadedIdxs (s : Session) : List ℕ :=
  (List.range s.tracks.length).filter (fun i => isLoadedT (s.tracks.getD i defaultTrack))

/-- MainComponent::onTrackLoaded (part_001 lines 6889-6907). -/
def onTrackLoadedS (trackBPM : ℚ) (s : Session) : Session :=
  if (loadedIdxs s).length = 1 ∧ 0 < trackBPM ∧ (loadedIdxs s).getLast?.isSome then
    setInitialMasterBPMS trackBPM (loadedIdxs s).getLast? s
  else s

/-- bufferToFill.clearActiveBufferRegion(): zero the active region. -/
def clearRegionBuf (b : AudioBuffer) (start n : ℤ) : AudioBuffer :=
  { b with data := fun ch i => if start ≤ i ∧ i < start + n then 0 else b.data ch i }

/-- MainComponent::generateClickSound (part_001 lines 6873-6887); `sine`
models the external `std::sin(2*pi*2000*phase)`. -/
def generateClickSound (sine : ℚ → ℚ) (phase : ℚ) : ℚ :=
  if 1/100 < phase then 0
  else
    let envelope := 1 - phase / (1/100)
    sine phase * (envelope * envelope) * (3/10)

/-- MainComponent::processMetronome (part_001 lines 6843-6871): per-sample
beat tracking and click synthesis into channels 0 and 1 (the code indexes the
output at the raw sample offset and hardcodes 44100 Hz). -/
def processMetronomeS (sine : ℚ → ℚ) (s : Session) (buffer : AudioBuffer)
    (numSamples : ℤ) : Session × AudioBuffer :=
  if ¬ (s.metronomeEnabled = true ∧ s.isPlaying = true) then (s, buffer) else
  let interval := 60 / s.masterTempo
  let res := (List.range numSamples.toNat).foldl
    (fun (st : ℚ × ℚ × AudioBuffer) (sample : ℕ) =>
      let currentTime := s.currentPlayPosition + (sample : ℚ) / 44100
      let st1 := if interval ≤ currentTime - st.1 then (currentTime, (0:ℚ)) else (st.1, st.2.1)
      let click := generateClickSound sine st1.2
      let b1 := if 1 ≤ st.2.2.numChannels then
          st.2.2.addSample 0 (sample : ℤ) (click * s.metronomeVolume) else st.2.2
      let b2 := if 2 ≤ st.2.2.numChannels then
          b1.addSample 1 (sample : ℤ) (click * s.metronomeVolume) else b1
      (st1.1, st1.2 + 1/44100, b2))
    (s.lastBeatTime, s.metronomePhase, buffer)
  ({ s with metronomeBeatInterval := interval, lastBeatTime := res.1,
            metronomePhase := res.2.1 }, res.2.2)

/-- The track-mixing loop of MainComponent::getNextAudioBlock: skip unloaded
tracks, muted tracks, and non-solo tracks when some track is soloed;
otherwise render into the shared buffer. -/
def mixTracks (recv : Recv) (hasSolo : Bool) (startSample n : ℤ) :
    List Track → AudioBuffer → List Track × AudioBuffer
  | [], out => ([], out)
  | t :: ts, out =>
    if isLoadedT t ∧ ¬ (t.muted = true ∨ (hasSolo = true ∧ ¬ t.solo = true)) then
      let r := processBlock recv t out startSample n
      let rest := mixTracks recv hasSolo startSample n ts r.out
      (r.track :: rest.1, rest.2)
    else
      let rest := mixTracks recv hasSolo startSample n ts out
      (t :: rest.1, rest.2)

/-- MainComponent::getNextAudioBlock (part_001 lines 6543-6582): clear the
active region, return silence when not playing, otherwise mix tracks, overlay
the metronome, and advance the play position by numSamples / 44100 (the code
hardcodes 44100 Hz). -/
def mixBlock (sine : ℚ → ℚ) (recv : Recv) (s : Session) (buffer : AudioBuffer)
    (startSample n : ℤ) : Session × AudioBuffer :=
  let out0 := clearRegionBuf buffer startSample n
  if ¬ s.isPlaying = true then (s, out0) else
  let hasSolo := s.tracks.any (fun t => t.solo)
  let mixed := mixTracks recv hasSolo startSample n s.tracks out0
  let s1 := { s with tracks := mixed.1 }
  let after :=
    if s.metronomeEnabled = true then processMetronomeS sine s1 mixed.2 n
    else (s1, mixed.2)
  ({ after.1 with currentPlayPosition := s.currentPlayPosition + (n : ℚ) / 44100 }, after.2)

/-- A sine oracle for the metronome click (never inspected by the claims). -/
def exSine : ℚ → ℚ := fun _ => 0

/-- A stopped session holding one loaded track. -/
def exSession : Session := ⟨[exTrack], 120, 120, false, false, 0, false, 0, 1/2, 0, 1/2, false⟩

/-- The same session, playing. -/
def exSessionP : Session := { exSession with isPlaying := true }

/-- The per-track / session tempo operations of the claim, applied to a
session (a per-track operation addresses a track by index, as the UI does). -/
inductive TrackCmd where
  | setStretch (i : ℕ) (q : ℚ)
  | scaleStretch (i : ℕ) (q : ℚ)
  | tempoCmd (q : ℚ)
  | initialCmd (q : ℚ) (i : Option ℕ)
  | autoSyncCmd (i : ℕ)

/-- Apply a per-track setter to the track at index i. -/
def updateTrackAt (i : ℕ) (f : Track → Track) (s : Session) : Session :=
  { s with tracks := mapWithIdx (fun j t => if j = i then f t else t) s.tracks }

def applyCmd : TrackCmd → Session → Session
  | TrackCmd.setStretch i q, s => updateTrackAt i (setStretchRatioT q) s
  | TrackCmd.scaleStretch i q, s => updateTrackAt i (scaleStretchRatioT q) s
  | TrackCmd.tempoCmd q, s => setTempoS q s
  | TrackCmd.initialCmd q i, s => setInitialMasterBPMS q i s
  | TrackCmd.autoSyncCmd i, s => updateTrackAt i autoSyncToMasterT s

def applyCmds : List TrackCmd → Session → Session
  | [], s => s
  | c :: cs, s => applyCmds cs (applyCmd c s)

/-- A session with exactly one loaded track (index 0; the second slot's track
is unloaded). -/
def exSessionC8 : Session := { exSession with tracks := [exTrack, defaultTrack] }

/-! ## Theorems -/

theorem cppInt_nonneg (q : ℚ) (h : 0 ≤ q) : cppInt q = ⌊q⌋ := if_pos h

theorem cppInt_le (q : ℚ) (h : 0 ≤ q) : (cppInt q : ℚ) ≤ q := by
  rw [cppInt_nonneg q h]; exact Int.floor_le q

theorem cppInt_mono {a b : ℚ} (h : a ≤ b) : cppInt a ≤ cppInt b := by
  unfold cppInt
  by_cases ha : 0 ≤ a
  · have hb : 0 ≤ b := le_trans ha h
    rw [if_pos ha, if_pos hb]
    exact Int.floor_le_floor h
  · by_cases hb : 0 ≤ b
    · rw [if_neg ha, if_pos hb]
      have h1 : (0:ℚ) ≤ -a := by linarith [lt_of_not_le ha]
      have h2 : (0:ℤ) ≤ ⌊-a⌋ := Int.le_floor.mpr (by exact_mod_cast h1)
      have h3 : (0:ℤ) ≤ ⌊b⌋ := Int.le_floor.mpr (by exact_mod_cast hb)
      omega
    · rw [if_neg ha, if_neg hb]
      have hba : -b ≤ -a := by linarith
      have := Int.floor_le_floor hba
      omega

theorem cppClamp_mem (lo hi v : ℚ) (h : lo ≤ hi) :
    lo ≤ cppClamp lo hi v ∧ cppClamp lo hi v ≤ hi := by
  unfold cppClamp
  split
  · exact ⟨le_refl lo, h⟩
  · split
    · exact ⟨h, le_refl hi⟩
    · constructor <;> linarith [le_of_not_lt (by assumption : ¬ v < lo),
        le_of_not_lt (by assumption : ¬ hi < v)]

theorem spectrumBin_silent (pos bin : ℕ) : spectrumBin silentBuf pos bin = 0 := by
  unfold spectrumBin silentBuf
  simp

theorem onsetFlux_silent (k : ℕ) : onsetFlux silentBuf k = 0 := by
  unfold onsetFlux
  simp [spectrumBin_silent]

theorem onsetSeries_silent : onsetSeries silentBuf = List.replicate 10 0 := by
  unfold onsetSeries
  have h10 : numFrames silentBuf.numSamples = 10 := by decide
  rw [h10]
  have h : List.map (onsetFlux silentBuf) (List.range 10)
      = List.map (fun _ => (0:ℚ)) (List.range 10) :=
    List.map_congr_left (fun k _ => onsetFlux_silent k)
  rw [h]
  decide

theorem listMax_silent : listMax (List.replicate 10 0) = 0 := by decide

theorem onsetTimes_silent : onsetTimes silentBuf 3000 = [] := by
  simp only [onsetTimes, onsetSeries_silent, listMax_silent, List.getD,
    List.getElem?_getD_replicate_default_eq, zero_mul, lt_self_iff_false, decide_False,
    Bool.and_false, Bool.false_and]
  simp
  intro x hx h1 h2 h3
  interval_cases x <;> simp_all

theorem cppInt_3000 : cppInt 3000 = 3000 := by
  rw [cppInt_nonneg _ (by norm_num)]
  rw [Int.floor_eq_iff]
  norm_num

theorem detectBPMFromOnsets_silent : detectBPMFromOnsets silentBuf 3000 = 120 := by
  simp only [detectBPMFromOnsets, onsetSeries_silent, onsetTimes_silent, cppInt_3000]
  norm_num [silentBuf]

theorem acMono_silent (i : ℤ) : acMono silentBuf i = 0 := by
  unfold acMono silentBuf
  simp

theorem acSeriesAt_silent : acSeriesAt silentBuf = fun _ => 0 := by
  funext k
  unfold acSeriesAt
  simp [acMono_silent]

theorem acCorr_zeroFun (size lag : ℕ) : acCorr (fun _ => (0:ℚ)) size lag = 0 := by
  unfold acCorr
  simp

theorem acScan_silent : acScan (fun _ => (0:ℚ)) 10 1 5 = (0, 1) := by
  unfold acScan
  simp only [acCorr_zeroFun]
  decide

theorem octaveCorrect_35156 : octaveCorrect (5625/16) = 5625/32 := by
  unfold octaveCorrect
  have h1 : octUp (5625/16 : ℚ) = 5625/16 := by
    rw [octUp]
    norm_num
  rw [h1]
  rw [octDown]
  norm_num
  rw [octDown]
  norm_num

theorem detectBPMAutocorrelation_silent :
    detectBPMAutocorrelation silentBuf 3000 = 5625/32 := by
  have hmin : cppInt (60 * 3000 / (200 * 512)) = 1 := by
    rw [cppInt_nonneg _ (by norm_num)]
    rw [Int.floor_eq_iff]
    norm_num
  have hmax : cppInt (60 * 3000 / (60 * 512)) = 5 := by
    rw [cppInt_nonneg _ (by norm_num)]
    rw [Int.floor_eq_iff]
    norm_num
  have hsize : numFrames (5700:ℕ) = 10 := by decide
  have hn : silentBuf.numSamples = 5700 := rfl
  simp only [detectBPMAutocorrelation, acSeriesAt_silent, cppInt_3000, hn, hmin, hmax,
    hsize, acScan_silent]
  norm_num
  exact octaveCorrect_35156

theorem loadDetectedBPM_silent : loadDetectedBPM silentBuf 3000 = 120 := by
  unfold loadDetectedBPM
  rw [detectBPMFromOnsets_silent]
  norm_num [fallbackIfOutOfRange]

/-- C1: the claim states that when the onset stage finds fewer than four
onsets, the detected BPM falls through to the autocorrelation stage's result
whenever the latter lies in [60,200].  On the silent buffer the onset stage
finds zero onsets, the autocorrelation stage would return 5625/32 = 175.78125
(inside [60,200] and different from 120), yet `loadAudioFile` assigns 120:
`detectBPMFromOnsets` signals failure by returning the in-range sentinel
120.0, so the caller's range test `detectedBPM < 60 || detectedBPM > 200`
never falls through and the fallback chain the code's own comments describe
("Fallback to autocorrelation if onset detection fails") is unreachable. -/
theorem c1_autocorrelation_fallback_unreachable :
    (onsetTimes silentBuf 3000).length < 4 ∧
    loadDetectedBPM silentBuf 3000 = 120 ∧
    detectBPMAutocorrelation silentBuf 3000 = 5625/32 ∧
    ((60:ℚ) ≤ 5625/32 ∧ (5625/32:ℚ) ≤ 200) ∧
    (5625/32 : ℚ) ≠ 120 := by
  refine ⟨?_, loadDetectedBPM_silent, detectBPMAutocorrelation_silent, ?_, ?_⟩
  · rw [onsetTimes_silent]
    norm_num
  · constructor <;> norm_num
  · norm_num

theorem fallbackIfOutOfRange_range (x y : ℚ) (hy : 60 ≤ y ∧ y ≤ 200) :
    60 ≤ fallbackIfOutOfRange x y ∧ fallbackIfOutOfRange x y ≤ 200 := by
  unfold fallbackIfOutOfRange
  split
  · exact hy
  · constructor <;>
      linarith [not_or.mp (by assumption : ¬ (x < 60 ∨ 200 < x))]

/-- C6: for every decoded buffer and sample rate, the BPM assigned by a
successful load lies in [60,200]; the embedding is a total function (never
fails), and on a degenerate buffer (empty: too short for any analysis) the
pipeline degrades to the 120 BPM default. -/
theorem c6_load_bpm_in_range :
    (∀ buf sr, 60 ≤ loadDetectedBPM buf sr ∧ loadDetectedBPM buf sr ≤ 200) ∧
    loadDetectedBPM ⟨1, 0, fun _ _ => 0⟩ 44100 = 120 := by
  constructor
  · intro buf sr
    exact fallbackIfOutOfRange_range _ 120 ⟨by norm_num, by norm_num⟩
  · have h : detectBPMFromOnsets ⟨1, 0, fun _ _ => 0⟩ 44100 = 120 := by
      unfold detectBPMFromOnsets
      simp
    unfold loadDetectedBPM
    rw [h]
    norm_num [fallbackIfOutOfRange]

/-- Helper for evaluating `cppInt` at concrete nonnegative rationals. -/
theorem cppInt_eq_of (q : ℚ) (z : ℤ) (h0 : 0 ≤ q) (h1 : (z:ℚ) ≤ q) (h2 : q < z + 1) :
    cppInt q = z := by
  rw [cppInt_nonneg _ h0]
  rw [Int.floor_eq_iff]
  constructor
  · exact h1
  · exact_mod_cast h2

/-- C5: `setLoopRegion(start, end)` takes effect exactly under
`0 ≤ start < end ≤ duration`: on acceptance it installs the region and
snaps the position to `start` when the position lies outside [start, end]
(leaving it otherwise, so the position always ends inside the region); on
rejection the whole track state — loop region and position included — is
unchanged. -/
theorem c5_setLoopRegion_guard (t : Track) (startTime endTime : ℚ) :
    ((0 ≤ startTime ∧ startTime < endTime ∧ endTime ≤ durationT t) →
      (setLoopRegionT startTime endTime t).hasCustomLoopRegion = true ∧
      (setLoopRegionT startTime endTime t).loopStartTime = startTime ∧
      (setLoopRegionT startTime endTime t).loopEndTime = endTime ∧
      (setLoopRegionT startTime endTime t).currentPosition =
        (if t.currentPosition < startTime ∨ endTime < t.currentPosition then startTime
         else t.currentPosition) ∧
      startTime ≤ (setLoopRegionT startTime endTime t).currentPosition ∧
      (setLoopRegionT startTime endTime t).currentPosition ≤ endTime) ∧
    (¬ (0 ≤ startTime ∧ startTime < endTime ∧ endTime ≤ durationT t) →
      setLoopRegionT startTime endTime t = t) := by
  constructor
  · intro hc
    unfold setLoopRegionT
    rw [if_pos hc]
    by_cases hsnap : t.currentPosition < startTime ∨ endTime < t.currentPosition
    · rw [if_pos hsnap, if_pos hsnap]
      refine ⟨rfl, rfl, rfl, rfl, le_refl _, le_of_lt hc.2.1⟩
    · rw [if_neg hsnap, if_neg hsnap]
      push_neg at hsnap
      exact ⟨rfl, rfl, rfl, rfl, hsnap.1, hsnap.2⟩
  · intro hc
    unfold setLoopRegionT
    rw [if_neg hc]

/-- Witness for C5 at a concrete accepted call: region (1/2, 1) on a loaded
track of duration 1 with position 0 (outside the region, so it snaps). -/
theorem c5_witness :
    (0 ≤ (1/2:ℚ) ∧ (1/2:ℚ) < 1 ∧ (1:ℚ) ≤ durationT exTrack) ∧
    (setLoopRegionT (1/2) 1 exTrack).hasCustomLoopRegion = true ∧
    (setLoopRegionT (1/2) 1 exTrack).currentPosition =
      (if exTrack.currentPosition < 1/2 ∨ (1:ℚ) < exTrack.currentPosition then (1/2:ℚ)
       else exTrack.currentPosition) := by
  have hd : durationT exTrack = 1 := by
    norm_num [durationT, durationOf, exTrack, exBuf10]
  have hc : 0 ≤ (1/2:ℚ) ∧ (1/2:ℚ) < 1 ∧ (1:ℚ) ≤ durationT exTrack := by
    rw [hd]
    norm_num
  have h := (c5_setLoopRegion_guard exTrack (1/2) 1).1 hc
  exact ⟨hc, h.1, h.2.2.2.1⟩

/-- C10: a `processBlock` call with a negative `startSample`, or with
`startSample + numSamples` exceeding the output buffer's frame count, is a
complete no-op: the output buffer, the track (position included) and the
stretch-engine state are returned unchanged and no source frame is read. -/
theorem c10_processBlock_out_of_range_noop (recv : Recv) (t : Track) (out : AudioBuffer)
    (startSample n : ℤ)
    (h : startSample < 0 ∨ (out.numSamples : ℤ) < startSample + n) :
    processBlock recv t out startSample n = mkNoop t out := by
  unfold processBlock
  rcases h with h | h
  · rw [if_pos (Or.inr (Or.inr (Or.inr h)))]
  · split_ifs with h1 h2
    · rfl
    · rfl
    · rfl

/-- Witness for C10: startSample 10, 10 frames, on a 16-frame output buffer
with a loaded, unmuted track (the call passes every earlier guard and is
rejected by the frame-count check alone). -/
theorem c10_witness :
    ((10:ℤ) < 0 ∨ (exOut.numSamples : ℤ) < 10 + 10) ∧
    processBlock exRecv exTrack exOut 10 10 = mkNoop exTrack exOut := by
  have h : (10:ℤ) < 0 ∨ (exOut.numSamples : ℤ) < 10 + 10 := by
    right
    norm_num [exOut]
  exact ⟨h, c10_processBlock_out_of_range_noop exRecv exTrack exOut 10 10 h⟩

theorem pdp_fedCount (t : Track) (out : AudioBuffer) (s n : ℤ) :
    (processDirectPlayback t out s n).fedCount = 0 := by
  simp only [processDirectPlayback]
  split_ifs <;> rfl

theorem pws_advance (recv recv' : Recv) (t : Track) (out : AudioBuffer) (s n : ℤ)
    (hfed : 0 < (processWithSoundTouch recv t out s n).fedCount) :
    (processWithSoundTouch recv t out s n).fedCount =
        min (n * 2) ((processWithSoundTouch recv t out s n).regionEndSample -
          (processWithSoundTouch recv t out s n).curIdx) ∧
    (processWithSoundTouch recv t out s n).track.currentPosition =
        (processWithSoundTouch recv' t out s n).track.currentPosition ∧
    ((processWithSoundTouch recv t out s n).track.currentPosition =
        (processWithSoundTouch recv t out s n).posBase +
          ((processWithSoundTouch recv t out s n).fedCount : ℚ) / t.sampleRate ∨
      (t.looping = true ∧
        (activeRegion t).2 ≤ (processWithSoundTouch recv t out s n).posBase +
          ((processWithSoundTouch recv t out s n).fedCount : ℚ) / t.sampleRate ∧
        (processWithSoundTouch recv t out s n).track.currentPosition = (activeRegion t).1)) := by
  simp only [processWithSoundTouch] at hfed ⊢
  split_ifs at hfed ⊢ <;>
    first
      | (simp only [mkNoop] at hfed
         exact absurd hfed (lt_irrefl 0))
      | exact ⟨rfl, rfl, Or.inl rfl⟩
      | (rename_i g
         exact ⟨rfl, rfl, Or.inr ⟨g.1, g.2, rfl⟩⟩)

theorem exTrack9_eval :
    (processBlock exRecv exTrack9 exOut 0 2).fedCount = 4 ∧
    (processBlock exRecv exTrack9 exOut 0 2).posBase = 3/5 ∧
    (processBlock exRecv exTrack9 exOut 0 2).track.currentPosition = 0 := by
  have h6 : cppInt 6 = 6 := cppInt_eq_of 6 6 (by norm_num) (by norm_num) (by norm_num)
  have h10 : cppInt 10 = 10 := cppInt_eq_of 10 10 (by norm_num) (by norm_num) (by norm_num)
  have h0 : cppInt 0 = 0 := cppInt_eq_of 0 0 (by norm_num) (by norm_num) (by norm_num)
  norm_num [processBlock, processWithSoundTouch, preWrapST, exTrack9, exTrack, exOut,
    exBuf10, exRecv, exST, activeRegion, durationT, durationOf, mkNoop, stPut, stClear,
    h6, h10, h0]

/-- C9, counterexample: a renderBlock call that feeds 4 input frames to the
stretch primitive (fedCount = 4) from position 0.6 s of a looping 1 s clip;
the advanced position 0.6 + 4/10 = 1.0 reaches the region end, so the final
position is the wrapped region start 0, not `posBase + consumed/sampleRate`.
The claim as stated ("position advances by exactly the input frames consumed
divided by sampleRate" for *every* feeding call) therefore fails here. -/
theorem c9_wrap_counterexample :
    0 < (processBlock exRecv exTrack9 exOut 0 2).fedCount ∧
    (processBlock exRecv exTrack9 exOut 0 2).fedCount = 4 ∧
    (processBlock exRecv exTrack9 exOut 0 2).posBase = 3/5 ∧
    (processBlock exRecv exTrack9 exOut 0 2).track.currentPosition = 0 ∧
    (processBlock exRecv exTrack9 exOut 0 2).track.currentPosition ≠
      (processBlock exRecv exTrack9 exOut 0 2).posBase +
        ((processBlock exRecv exTrack9 exOut 0 2).fedCount : ℚ) / exTrack9.sampleRate := by
  obtain ⟨h1, h2, h3⟩ := exTrack9_eval
  rw [h1, h2, h3]
  refine ⟨by norm_num, rfl, rfl, rfl, ?_⟩
  norm_num [exTrack9, exTrack]

/-- C9 (amended): for every renderBlock call that feeds input to the stretch
primitive (fedCount > 0), the number of input frames consumed is exactly
`min(2*frameCount, frames remaining to the active region end)`, the resulting
position is the same for every behaviour of the external primitive
(independent of how many output frames it produces), and the position
advances by exactly `consumed / sampleRate` — except that when looping is
enabled and the advanced position reaches the active region's end, the
position then wraps to the region start. -/
theorem c9_stretch_advance_by_input (recv recv' : Recv) (t : Track) (out : AudioBuffer)
    (s n : ℤ) (hfed : 0 < (processBlock recv t out s n).fedCount) :
    (processBlock recv t out s n).fedCount =
        min (n * 2) ((processBlock recv t out s n).regionEndSample -
          (processBlock recv t out s n).curIdx) ∧
    (processBlock recv t out s n).track.currentPosition =
        (processBlock recv' t out s n).track.currentPosition ∧
    ((processBlock recv t out s n).track.currentPosition =
        (processBlock recv t out s n).posBase +
          ((processBlock recv t out s n).fedCount : ℚ) / t.sampleRate ∨
      (t.looping = true ∧
        (activeRegion t).2 ≤ (processBlock recv t out s n).posBase +
          ((processBlock recv t out s n).fedCount : ℚ) / t.sampleRate ∧
        (processBlock recv t out s n).track.currentPosition = (activeRegion t).1)) := by
  unfold processBlock at hfed ⊢
  split_ifs at hfed ⊢ <;>
    first
      | (simp only [mkNoop] at hfed
         exact absurd hfed (lt_irrefl 0))
      | (simp only [pdp_fedCount] at hfed
         exact absurd hfed (lt_irrefl 0))
      | exact pws_advance recv recv' t out s n hfed

theorem exTrackW_fed : 0 < (processBlock exRecv exTrackW exOut 0 2).fedCount := by
  have h2 : cppInt 2 = 2 := cppInt_eq_of 2 2 (by norm_num) (by norm_num) (by norm_num)
  have h10 : cppInt 10 = 10 := cppInt_eq_of 10 10 (by norm_num) (by norm_num) (by norm_num)
  have h0 : cppInt 0 = 0 := cppInt_eq_of 0 0 (by norm_num) (by norm_num) (by norm_num)
  norm_num [processBlock, processWithSoundTouch, preWrapST, exTrackW, exTrack, exOut,
    exBuf10, exRecv, exST, activeRegion, durationT, durationOf, mkNoop, stPut, stClear,
    h2, h10, h0]

/-- Witness for C9 at a concrete feeding call (two different oracles). -/
theorem c9_witness :
    0 < (processBlock exRecv exTrackW exOut 0 2).fedCount ∧
    ((processBlock exRecv exTrackW exOut 0 2).fedCount =
        min (2 * 2) ((processBlock exRecv exTrackW exOut 0 2).regionEndSample -
          (processBlock exRecv exTrackW exOut 0 2).curIdx) ∧
     (processBlock exRecv exTrackW exOut 0 2).track.currentPosition =
        (processBlock exRecvB exTrackW exOut 0 2).track.currentPosition ∧
     ((processBlock exRecv exTrackW exOut 0 2).track.currentPosition =
        (processBlock exRecv exTrackW exOut 0 2).posBase +
          ((processBlock exRecv exTrackW exOut 0 2).fedCount : ℚ) / exTrackW.sampleRate ∨
      (exTrackW.looping = true ∧
        (activeRegion exTrackW).2 ≤ (processBlock exRecv exTrackW exOut 0 2).posBase +
          ((processBlock exRecv exTrackW exOut 0 2).fedCount : ℚ) / exTrackW.sampleRate ∧
        (processBlock exRecv exTrackW exOut 0 2).track.currentPosition =
          (activeRegion exTrackW).1))) :=
  ⟨exTrackW_fed, c9_stretch_advance_by_input exRecv exRecvB exTrackW exOut 0 2 exTrackW_fed⟩

theorem cppInt_intCast (z : ℤ) : cppInt (z : ℚ) = z := by
  unfold cppInt
  split
  · exact Int.floor_intCast z
  · rw [show -((z:ℤ):ℚ) = (((-z : ℤ)):ℚ) by push_cast; ring]
    rw [Int.floor_intCast]
    ring

theorem activeRegion_custom (t : Track) (hreg : t.hasCustomLoopRegion = true)
    (hlt : t.loopStartTime < t.loopEndTime) :
    activeRegion t = (t.loopStartTime, t.loopEndTime) := by
  unfold activeRegion
  rw [if_pos ⟨hreg, hlt⟩]

theorem preWrapDirect_spec (t : Track) (lss les ll : ℤ) (lsq : ℚ)
    (hll : ll = les - lss) (hllpos : 0 < ll)
    (hlsq : cppInt (lsq * t.sampleRate) = lss)
    (hsr : t.sampleRate ≠ 0)
    (hcur : lss ≤ cppInt (t.currentPosition * t.sampleRate))
    (hguard : ¬ (¬ t.looping = true ∧ les ≤ cppInt (t.currentPosition * t.sampleRate))) :
    lss ≤ (preWrapDirect t lss les ll (cppInt (t.currentPosition * t.sampleRate)) lsq).1 ∧
    (preWrapDirect t lss les ll (cppInt (t.currentPosition * t.sampleRate)) lsq).1 < les ∧
    cppInt ((preWrapDirect t lss les ll (cppInt (t.currentPosition * t.sampleRate)) lsq).2 *
      t.sampleRate) =
      (preWrapDirect t lss les ll (cppInt (t.currentPosition * t.sampleRate)) lsq).1 := by
  unfold preWrapDirect
  by_cases hloop : t.looping
  · rw [if_pos hloop]
    by_cases hlow : cppInt (t.currentPosition * t.sampleRate) < lss
    · rw [if_pos hlow]
      exact ⟨le_refl _, by omega, hlsq⟩
    · rw [if_neg hlow]
      by_cases hhigh : les ≤ cppInt (t.currentPosition * t.sampleRate)
      · rw [if_pos hhigh]
        dsimp only
        have hmod1 : 0 ≤ (cppInt (t.currentPosition * t.sampleRate) - lss) % ll :=
          Int.emod_nonneg _ (ne_of_gt hllpos)
        have hmod2 : (cppInt (t.currentPosition * t.sampleRate) - lss) % ll < ll :=
          Int.emod_lt_of_pos _ hllpos
        refine ⟨by omega, by omega, ?_⟩
        rw [div_mul_cancel₀ _ hsr]
        exact cppInt_intCast _
      · rw [if_neg hhigh]
        exact ⟨hcur, by omega, rfl⟩
  · rw [if_neg hloop]
    have hhigh : ¬ les ≤ cppInt (t.currentPosition * t.sampleRate) := by
      intro hc
      exact hguard ⟨by simpa using hloop, hc⟩
    exact ⟨hcur, by omega, rfl⟩

theorem preWrapST_fst (t : Track) (st0 : STState) (lss les ll cur0 : ℤ) (lsq : ℚ) :
    (preWrapST t st0 lss les ll cur0 lsq).1 = (preWrapDirect t lss les ll cur0 lsq).1 := by
  unfold preWrapST preWrapDirect
  split_ifs <;> rfl

theorem preWrapST_pos (t : Track) (st0 : STState) (lss les ll cur0 : ℤ) (lsq : ℚ) :
    (preWrapST t st0 lss les ll cur0 lsq).2.1 = (preWrapDirect t lss les ll cur0 lsq).2 := by
  unfold preWrapST preWrapDirect
  split_ifs <;> rfl

theorem pdp_reads_invariant (t : Track) (out : AudioBuffer) (s n : ℤ)
    (hreg : t.hasCustomLoopRegion = true) (hlt : t.loopStartTime < t.loopEndTime)
    (hsr : 0 < t.sampleRate)
    (hcur : cppInt (t.loopStartTime * t.sampleRate) ≤
      cppInt (t.currentPosition * t.sampleRate)) :
    (∀ r ∈ (processDirectPlayback t out s n).reads,
        cppInt (t.loopStartTime * t.sampleRate) ≤ r ∧
        r < min (cppInt (t.loopEndTime * t.sampleRate)) (t.buf.numSamples : ℤ)) ∧
    cppInt (t.loopStartTime * t.sampleRate) ≤
      cppInt ((processDirectPlayback t out s n).track.currentPosition * t.sampleRate) := by
  simp only [processDirectPlayback, activeRegion_custom t hreg hlt]
  split_ifs with h1 h2 h3 h4
  · exact ⟨by simp [mkNoop], by simpa [mkNoop] using hcur⟩
  · exact ⟨by simp [mkNoop], by simpa [mkNoop] using hcur⟩
  · have hspec := preWrapDirect_spec t
      (cppInt (t.loopStartTime * t.sampleRate))
      (min (cppInt (t.loopEndTime * t.sampleRate)) (t.buf.numSamples : ℤ))
      (min (cppInt (t.loopEndTime * t.sampleRate)) (t.buf.numSamples : ℤ) -
        cppInt (t.loopStartTime * t.sampleRate))
      t.loopStartTime rfl (by omega) rfl (ne_of_gt hsr) hcur h2
    refine ⟨by simp [mkNoop], ?_⟩
    simp only [mkNoop]
    rw [hspec.2.2]
    exact hspec.1
  · -- rendering branch, wrap-after-advance case
    have hspec := preWrapDirect_spec t
      (cppInt (t.loopStartTime * t.sampleRate))
      (min (cppInt (t.loopEndTime * t.sampleRate)) (t.buf.numSamples : ℤ))
      (min (cppInt (t.loopEndTime * t.sampleRate)) (t.buf.numSamples : ℤ) -
        cppInt (t.loopStartTime * t.sampleRate))
      t.loopStartTime rfl (by omega) rfl (ne_of_gt hsr) hcur h2
    constructor
    · intro r hr
      simp only [List.mem_map, List.mem_range] at hr
      obtain ⟨i, hi, rfl⟩ := hr
      have hi0 : (0:ℤ) ≤ (i:ℤ) := Int.natCast_nonneg i
      have hi2 := Int.lt_toNat.mp hi
      have hmin := min_le_right n
        (min (cppInt (t.loopEndTime * t.sampleRate)) (t.buf.numSamples : ℤ) -
          (preWrapDirect t (cppInt (t.loopStartTime * t.sampleRate))
            (min (cppInt (t.loopEndTime * t.sampleRate)) (t.buf.numSamples : ℤ))
            (min (cppInt (t.loopEndTime * t.sampleRate)) (t.buf.numSamples : ℤ) -
              cppInt (t.loopStartTime * t.sampleRate))
            (cppInt (t.currentPosition * t.sampleRate)) t.loopStartTime).1)
      omega
    · dsimp only
      omega
  · -- rendering branch, no wrap after advance
    have hspec := preWrapDirect_spec t
      (cppInt (t.loopStartTime * t.sampleRate))
      (min (cppInt (t.loopEndTime * t.sampleRate)) (t.buf.numSamples : ℤ))
      (min (cppInt (t.loopEndTime * t.sampleRate)) (t.buf.numSamples : ℤ) -
        cppInt (t.loopStartTime * t.sampleRate))
      t.loopStartTime rfl (by omega) rfl (ne_of_gt hsr) hcur h2
    constructor
    · intro r hr
      simp only [List.mem_map, List.mem_range] at hr
      obtain ⟨i, hi, rfl⟩ := hr
      have hi0 : (0:ℤ) ≤ (i:ℤ) := Int.natCast_nonneg i
      have hi2 := Int.lt_toNat.mp hi
      have hmin := min_le_right n
        (min (cppInt (t.loopEndTime * t.sampleRate)) (t.buf.numSamples : ℤ) -
          (preWrapDirect t (cppInt (t.loopStartTime * t.sampleRate))
            (min (cppInt (t.loopEndTime * t.sampleRate)) (t.buf.numSamples : ℤ))
            (min (cppInt (t.loopEndTime * t.sampleRate)) (t.buf.numSamples : ℤ) -
              cppInt (t.loopStartTime * t.sampleRate))
            (cppInt (t.currentPosition * t.sampleRate)) t.loopStartTime).1)
      omega
    · dsimp only
      have hkey :
        ((preWrapDirect t (cppInt (t.loopStartTime * t.sampleRate))
            (min (cppInt (t.loopEndTime * t.sampleRate)) (t.buf.numSamples : ℤ))
            (min (cppInt (t.loopEndTime * t.sampleRate)) (t.buf.numSamples : ℤ) -
              cppInt (t.loopStartTime * t.sampleRate))
            (cppInt (t.currentPosition * t.sampleRate)) t.loopStartTime).2 +
          ((min n (min (cppInt (t.loopEndTime * t.sampleRate)) (t.buf.numSamples : ℤ) -
            (preWrapDirect t (cppInt (t.loopStartTime * t.sampleRate))
              (min (cppInt (t.loopEndTime * t.sampleRate)) (t.buf.numSamples : ℤ))
              (min (cppInt (t.loopEndTime * t.sampleRate)) (t.buf.numSamples : ℤ) -
                cppInt (t.loopStartTime * t.sampleRate))
              (cppInt (t.currentPosition * t.sampleRate)) t.loopStartTime).1) : ℤ) : ℚ) /
            t.sampleRate) * t.sampleRate =
        (preWrapDirect t (cppInt (t.loopStartTime * t.sampleRate))
            (min (cppInt (t.loopEndTime * t.sampleRate)) (t.buf.numSamples : ℤ))
            (min (cppInt (t.loopEndTime * t.sampleRate)) (t.buf.numSamples : ℤ) -
              cppInt (t.loopStartTime * t.sampleRate))
            (cppInt (t.currentPosition * t.sampleRate)) t.loopStartTime).2 * t.sampleRate +
          ((min n (min (cppInt (t.loopEndTime * t.sampleRate)) (t.buf.numSamples : ℤ) -
            (preWrapDirect t (cppInt (t.loopStartTime * t.sampleRate))
              (min (cppInt (t.loopEndTime * t.sampleRate)) (t.buf.numSamples : ℤ))
              (min (cppInt (t.loopEndTime * t.sampleRate)) (t.buf.numSamples : ℤ) -
                cppInt (t.loopStartTime * t.sampleRate))
              (cppInt (t.currentPosition * t.sampleRate)) t.loopStartTime).1) : ℤ) : ℚ) := by
        field_simp
      rw [hkey]
      have hmono : cppInt ((preWrapDirect t (cppInt (t.loopStartTime * t.sampleRate))
            (min (cppInt (t.loopEndTime * t.sampleRate)) (t.buf.numSamples : ℤ))
            (min (cppInt (t.loopEndTime * t.sampleRate)) (t.buf.numSamples : ℤ) -
              cppInt (t.loopStartTime * t.sampleRate))
            (cppInt (t.currentPosition * t.sampleRate)) t.loopStartTime).2 * t.sampleRate) ≤
          cppInt ((preWrapDirect t (cppInt (t.loopStartTime * t.sampleRate))
            (min (cppInt (t.loopEndTime * t.sampleRate)) (t.buf.numSamples : ℤ))
            (min (cppInt (t.loopEndTime * t.sampleRate)) (t.buf.numSamples : ℤ) -
              cppInt (t.loopStartTime * t.sampleRate))
            (cppInt (t.currentPosition * t.sampleRate)) t.loopStartTime).2 * t.sampleRate +
          ((min n (min (cppInt (t.loopEndTime * t.sampleRate)) (t.buf.numSamples : ℤ) -
            (preWrapDirect t (cppInt (t.loopStartTime * t.sampleRate))
              (min (cppInt (t.loopEndTime * t.sampleRate)) (t.buf.numSamples : ℤ))
              (min (cppInt (t.loopEndTime * t.sampleRate)) (t.buf.numSamples : ℤ) -
                cppInt (t.loopStartTime * t.sampleRate))
              (cppInt (t.currentPosition * t.sampleRate)) t.loopStartTime).1) : ℤ) : ℚ)) := by
        apply cppInt_mono
        have : (0:ℚ) ≤ ((min n (min (cppInt (t.loopEndTime * t.sampleRate))
            (t.buf.numSamples : ℤ) -
            (preWrapDirect t (cppInt (t.loopStartTime * t.sampleRate))
              (min (cppInt (t.loopEndTime * t.sampleRate)) (t.buf.numSamples : ℤ))
              (min (cppInt (t.loopEndTime * t.sampleRate)) (t.buf.numSamples : ℤ) -
                cppInt (t.loopStartTime * t.sampleRate))
              (cppInt (t.currentPosition * t.sampleRate)) t.loopStartTime).1) : ℤ) : ℚ) := by
          exact_mod_cast le_of_lt (by omega : (0:ℤ) < min n
            (min (cppInt (t.loopEndTime * t.sampleRate)) (t.buf.numSamples : ℤ) -
            (preWrapDirect t (cppInt (t.loopStartTime * t.sampleRate))
              (min (cppInt (t.loopEndTime * t.sampleRate)) (t.buf.numSamples : ℤ))
              (min (cppInt (t.loopEndTime * t.sampleRate)) (t.buf.numSamples : ℤ) -
                cppInt (t.loopStartTime * t.sampleRate))
              (cppInt (t.currentPosition * t.sampleRate)) t.loopStartTime).1))
        linarith
      calc cppInt (t.loopStartTime * t.sampleRate)
          ≤ cppInt ((preWrapDirect t (cppInt (t.loopStartTime * t.sampleRate))
              (min (cppInt (t.loopEndTime * t.sampleRate)) (t.buf.numSamples : ℤ))
              (min (cppInt (t.loopEndTime * t.sampleRate)) (t.buf.numSamples : ℤ) -
                cppInt (t.loopStartTime * t.sampleRate))
              (cppInt (t.currentPosition * t.sampleRate)) t.loopStartTime).2 *
              t.sampleRate) := by
            rw [hspec.2.2]
            exact hspec.1
        _ ≤ _ := hmono

theorem pws_reads_invariant (recv : Recv) (t : Track) (out : AudioBuffer) (s n : ℤ)
    (hreg : t.hasCustomLoopRegion = true) (hlt : t.loopStartTime < t.loopEndTime)
    (hsr : 0 < t.sampleRate)
    (hcur : cppInt (t.loopStartTime * t.sampleRate) ≤
      cppInt (t.currentPosition * t.sampleRate)) :
    (∀ r ∈ (processWithSoundTouch recv t out s n).reads,
        cppInt (t.loopStartTime * t.sampleRate) ≤ r ∧
        r < min (cppInt (t.loopEndTime * t.sampleRate)) (t.buf.numSamples : ℤ)) ∧
    cppInt (t.loopStartTime * t.sampleRate) ≤
      cppInt ((processWithSoundTouch recv t out s n).track.currentPosition * t.sampleRate) := by
  simp only [processWithSoundTouch, activeRegion_custom t hreg hlt, preWrapST_fst, preWrapST_pos]
  split_ifs with h1 h2 h3 h4
  · exact ⟨by simp [mkNoop], by simpa [mkNoop] using hcur⟩
  · exact ⟨by simp [mkNoop], by simpa [mkNoop] using hcur⟩
  · have hspec := preWrapDirect_spec t
      (cppInt (t.loopStartTime * t.sampleRate))
      (min (cppInt (t.loopEndTime * t.sampleRate)) (t.buf.numSamples : ℤ))
      (min (cppInt (t.loopEndTime * t.sampleRate)) (t.buf.numSamples : ℤ) -
        cppInt (t.loopStartTime * t.sampleRate))
      t.loopStartTime rfl (by omega) rfl (ne_of_gt hsr) hcur h2
    refine ⟨by simp [mkNoop], ?_⟩
    simp only [mkNoop]
    rw [hspec.2.2]
    exact hspec.1
  · -- rendering branch, wrap-after-advance case
    have hspec := preWrapDirect_spec t
      (cppInt (t.loopStartTime * t.sampleRate))
      (min (cppInt (t.loopEndTime * t.sampleRate)) (t.buf.numSamples : ℤ))
      (min (cppInt (t.loopEndTime * t.sampleRate)) (t.buf.numSamples : ℤ) -
        cppInt (t.loopStartTime * t.sampleRate))
      t.loopStartTime rfl (by omega) rfl (ne_of_gt hsr) hcur h2
    constructor
    · intro r hr
      simp only [List.mem_map, List.mem_range] at hr
      obtain ⟨i, hi, rfl⟩ := hr
      have hi0 : (0:ℤ) ≤ (i:ℤ) := Int.natCast_nonneg i
      have hi2 := Int.lt_toNat.mp hi
      have hmin := min_le_right (n * 2)
        (min (cppInt (t.loopEndTime * t.sampleRate)) (t.buf.numSamples : ℤ) -
          (preWrapDirect t (cppInt (t.loopStartTime * t.sampleRate))
            (min (cppInt (t.loopEndTime * t.sampleRate)) (t.buf.numSamples : ℤ))
            (min (cppInt (t.loopEndTime * t.sampleRate)) (t.buf.numSamples : ℤ) -
              cppInt (t.loopStartTime * t.sampleRate))
            (cppInt (t.currentPosition * t.sampleRate)) t.loopStartTime).1)
      omega
    · dsimp only
      omega
  · -- rendering branch, no wrap after advance
    have hspec := preWrapDirect_spec t
      (cppInt (t.loopStartTime * t.sampleRate))
      (min (cppInt (t.loopEndTime * t.sampleRate)) (t.buf.numSamples : ℤ))
      (min (cppInt (t.loopEndTime * t.sampleRate)) (t.buf.numSamples : ℤ) -
        cppInt (t.loopStartTime * t.sampleRate))
      t.loopStartTime rfl (by omega) rfl (ne_of_gt hsr) hcur h2
    constructor
    · intro r hr
      simp only [List.mem_map, List.mem_range] at hr
      obtain ⟨i, hi, rfl⟩ := hr
      have hi0 : (0:ℤ) ≤ (i:ℤ) := Int.natCast_nonneg i
      have hi2 := Int.lt_toNat.mp hi
      have hmin := min_le_right (n * 2)
        (min (cppInt (t.loopEndTime * t.sampleRate)) (t.buf.numSamples : ℤ) -
          (preWrapDirect t (cppInt (t.loopStartTime * t.sampleRate))
            (min (cppInt (t.loopEndTime * t.sampleRate)) (t.buf.numSamples : ℤ))
            (min (cppInt (t.loopEndTime * t.sampleRate)) (t.buf.numSamples : ℤ) -
              cppInt (t.loopStartTime * t.sampleRate))
            (cppInt (t.currentPosition * t.sampleRate)) t.loopStartTime).1)
      omega
    · dsimp only
      have hkey :
        ((preWrapDirect t (cppInt (t.loopStartTime * t.sampleRate))
            (min (cppInt (t.loopEndTime * t.sampleRate)) (t.buf.numSamples : ℤ))
            (min (cppInt (t.loopEndTime * t.sampleRate)) (t.buf.numSamples : ℤ) -
              cppInt (t.loopStartTime * t.sampleRate))
            (cppInt (t.currentPosition * t.sampleRate)) t.loopStartTime).2 +
          ((min (n * 2) (min (cppInt (t.loopEndTime * t.sampleRate)) (t.buf.numSamples : ℤ) -
            (preWrapDirect t (cppInt (t.loopStartTime * t.sampleRate))
              (min (cppInt (t.loopEndTime * t.sampleRate)) (t.buf.numSamples : ℤ))
              (min (cppInt (t.loopEndTime * t.sampleRate)) (t.buf.numSamples : ℤ) -
                cppInt (t.loopStartTime * t.sampleRate))
              (cppInt (t.currentPosition * t.sampleRate)) t.loopStartTime).1) : ℤ) : ℚ) /
            t.sampleRate) * t.sampleRate =
        (preWrapDirect t (cppInt (t.loopStartTime * t.sampleRate))
            (min (cppInt (t.loopEndTime * t.sampleRate)) (t.buf.numSamples : ℤ))
            (min (cppInt (t.loopEndTime * t.sampleRate)) (t.buf.numSamples : ℤ) -
              cppInt (t.loopStartTime * t.sampleRate))
            (cppInt (t.currentPosition * t.sampleRate)) t.loopStartTime).2 * t.sampleRate +
          ((min (n * 2) (min (cppInt (t.loopEndTime * t.sampleRate)) (t.buf.numSamples : ℤ) -
            (preWrapDirect t (cppInt (t.loopStartTime * t.sampleRate))
              (min (cppInt (t.loopEndTime * t.sampleRate)) (t.buf.numSamples : ℤ))
              (min (cppInt (t.loopEndTime * t.sampleRate)) (t.buf.numSamples : ℤ) -
                cppInt (t.loopStartTime * t.sampleRate))
              (cppInt (t.currentPosition * t.sampleRate)) t.loopStartTime).1) : ℤ) : ℚ) := by
        field_simp
      rw [hkey]
      have hmono : cppInt ((preWrapDirect t (cppInt (t.loopStartTime * t.sampleRate))
            (min (cppInt (t.loopEndTime * t.sampleRate)) (t.buf.numSamples : ℤ))
            (min (cppInt (t.loopEndTime * t.sampleRate)) (t.buf.numSamples : ℤ) -
              cppInt (t.loopStartTime * t.sampleRate))
            (cppInt (t.currentPosition * t.sampleRate)) t.loopStartTime).2 * t.sampleRate) ≤
          cppInt ((preWrapDirect t (cppInt (t.loopStartTime * t.sampleRate))
            (min (cppInt (t.loopEndTime * t.sampleRate)) (t.buf.numSamples : ℤ))
            (min (cppInt (t.loopEndTime * t.sampleRate)) (t.buf.numSamples : ℤ) -
              cppInt (t.loopStartTime * t.sampleRate))
            (cppInt (t.currentPosition * t.sampleRate)) t.loopStartTime).2 * t.sampleRate +
          ((min (n * 2) (min (cppInt (t.loopEndTime * t.sampleRate)) (t.buf.numSamples : ℤ) -
            (preWrapDirect t (cppInt (t.loopStartTime * t.sampleRate))
              (min (cppInt (t.loopEndTime * t.sampleRate)) (t.buf.numSamples : ℤ))
              (min (cppInt (t.loopEndTime * t.sampleRate)) (t.buf.numSamples : ℤ) -
                cppInt (t.loopStartTime * t.sampleRate))
              (cppInt (t.currentPosition * t.sampleRate)) t.loopStartTime).1) : ℤ) : ℚ)) := by
        apply cppInt_mono
        have : (0:ℚ) ≤ ((min (n * 2) (min (cppInt (t.loopEndTime * t.sampleRate))
            (t.buf.numSamples : ℤ) -
            (preWrapDirect t (cppInt (t.loopStartTime * t.sampleRate))
              (min (cppInt (t.loopEndTime * t.sampleRate)) (t.buf.numSamples : ℤ))
              (min (cppInt (t.loopEndTime * t.sampleRate)) (t.buf.numSamples : ℤ) -
                cppInt (t.loopStartTime * t.sampleRate))
              (cppInt (t.currentPosition * t.sampleRate)) t.loopStartTime).1) : ℤ) : ℚ) := by
          exact_mod_cast le_of_lt (by omega : (0:ℤ) < min (n * 2)
            (min (cppInt (t.loopEndTime * t.sampleRate)) (t.buf.numSamples : ℤ) -
            (preWrapDirect t (cppInt (t.loopStartTime * t.sampleRate))
              (min (cppInt (t.loopEndTime * t.sampleRate)) (t.buf.numSamples : ℤ))
              (min (cppInt (t.loopEndTime * t.sampleRate)) (t.buf.numSamples : ℤ) -
                cppInt (t.loopStartTime * t.sampleRate))
              (cppInt (t.currentPosition * t.sampleRate)) t.loopStartTime).1))
        linarith
      calc cppInt (t.loopStartTime * t.sampleRate)
          ≤ cppInt ((preWrapDirect t (cppInt (t.loopStartTime * t.sampleRate))
              (min (cppInt (t.loopEndTime * t.sampleRate)) (t.buf.numSamples : ℤ))
              (min (cppInt (t.loopEndTime * t.sampleRate)) (t.buf.numSamples : ℤ) -
                cppInt (t.loopStartTime * t.sampleRate))
              (cppInt (t.currentPosition * t.sampleRate)) t.loopStartTime).2 *
              t.sampleRate) := by
            rw [hspec.2.2]
            exact hspec.1
        _ ≤ _ := hmono

theorem pdp_static (t : Track) (out : AudioBuffer) (s n : ℤ) :
    (processDirectPlayback t out s n).track.buf = t.buf ∧
    (processDirectPlayback t out s n).track.sampleRate = t.sampleRate ∧
    (processDirectPlayback t out s n).track.hasCustomLoopRegion = t.hasCustomLoopRegion ∧
    (processDirectPlayback t out s n).track.loopStartTime = t.loopStartTime ∧
    (processDirectPlayback t out s n).track.loopEndTime = t.loopEndTime := by
  simp only [processDirectPlayback, mkNoop]
  split_ifs <;> exact ⟨rfl, rfl, rfl, rfl, rfl⟩

theorem pws_static (recv : Recv) (t : Track) (out : AudioBuffer) (s n : ℤ) :
    (processWithSoundTouch recv t out s n).track.buf = t.buf ∧
    (processWithSoundTouch recv t out s n).track.sampleRate = t.sampleRate ∧
    (processWithSoundTouch recv t out s n).track.hasCustomLoopRegion =
      t.hasCustomLoopRegion ∧
    (processWithSoundTouch recv t out s n).track.loopStartTime = t.loopStartTime ∧
    (processWithSoundTouch recv t out s n).track.loopEndTime = t.loopEndTime := by
  simp only [processWithSoundTouch, mkNoop]
  split_ifs <;> exact ⟨rfl, rfl, rfl, rfl, rfl⟩

theorem pb_static (recv : Recv) (t : Track) (out : AudioBuffer) (s n : ℤ) :
    (processBlock recv t out s n).track.buf = t.buf ∧
    (processBlock recv t out s n).track.sampleRate = t.sampleRate ∧
    (processBlock recv t out s n).track.hasCustomLoopRegion = t.hasCustomLoopRegion ∧
    (processBlock recv t out s n).track.loopStartTime = t.loopStartTime ∧
    (processBlock recv t out s n).track.loopEndTime = t.loopEndTime := by
  unfold processBlock
  split_ifs
  · exact ⟨rfl, rfl, rfl, rfl, rfl⟩
  · exact ⟨rfl, rfl, rfl, rfl, rfl⟩
  · exact ⟨rfl, rfl, rfl, rfl, rfl⟩
  · exact pdp_static t out s n
  · exact pws_static recv t out s n

theorem pb_reads_invariant (recv : Recv) (t : Track) (out : AudioBuffer) (s n : ℤ)
    (hreg : t.hasCustomLoopRegion = true) (hlt : t.loopStartTime < t.loopEndTime)
    (hsr : 0 < t.sampleRate)
    (hcur : cppInt (t.loopStartTime * t.sampleRate) ≤
      cppInt (t.currentPosition * t.sampleRate)) :
    (∀ r ∈ (processBlock recv t out s n).reads,
        cppInt (t.loopStartTime * t.sampleRate) ≤ r ∧
        r < min (cppInt (t.loopEndTime * t.sampleRate)) (t.buf.numSamples : ℤ)) ∧
    cppInt (t.loopStartTime * t.sampleRate) ≤
      cppInt ((processBlock recv t out s n).track.currentPosition * t.sampleRate) := by
  unfold processBlock
  split_ifs
  · exact ⟨by simp [mkNoop], by simpa [mkNoop] using hcur⟩
  · exact ⟨by simp [mkNoop], by simpa [mkNoop] using hcur⟩
  · exact ⟨by simp [mkNoop], by simpa [mkNoop] using hcur⟩
  · exact pdp_reads_invariant t out s n hreg hlt hsr hcur
  · exact pws_reads_invariant recv t out s n hreg hlt hsr hcur

theorem seqReads_bounded (calls : List RenderCall) (t : Track)
    (hreg : t.hasCustomLoopRegion = true) (hlt : t.loopStartTime < t.loopEndTime)
    (hsr : 0 < t.sampleRate)
    (hcur : cppInt (t.loopStartTime * t.sampleRate) ≤
      cppInt (t.currentPosition * t.sampleRate)) :
    ∀ r ∈ seqReads calls t,
      cppInt (t.loopStartTime * t.sampleRate) ≤ r ∧
      r < min (cppInt (t.loopEndTime * t.sampleRate)) (t.buf.numSamples : ℤ) := by
  induction calls generalizing t with
  | nil =>
    intro r hr
    simp [seqReads] at hr
  | cons c cs ih =>
    intro r hr
    simp only [seqReads, List.mem_append] at hr
    obtain ⟨hbuf, hsr2, hregp, hlsp, hlep⟩ := pb_static c.1 t c.2.1 c.2.2.1 c.2.2.2
    have hstep := pb_reads_invariant c.1 t c.2.1 c.2.2.1 c.2.2.2 hreg hlt hsr hcur
    rcases hr with hr | hr
    · exact hstep.1 r hr
    · have ihr := ih (processBlock c.1 t c.2.1 c.2.2.1 c.2.2.2).track
        (by rw [hregp]; exact hreg)
        (by rw [hlsp, hlep]; exact hlt)
        (by rw [hsr2]; exact hsr)
        (by rw [hlsp, hsr2]; exact hstep.2) r hr
      rw [hlsp, hlep, hsr2, hbuf] at ihr
      exact ihr

theorem setLoopRegionT_accepted (t : Track) (st en : ℚ)
    (hc : 0 ≤ st ∧ st < en ∧ en ≤ durationT t) :
    (setLoopRegionT st en t).hasCustomLoopRegion = true ∧
    (setLoopRegionT st en t).loopStartTime = st ∧
    (setLoopRegionT st en t).loopEndTime = en ∧
    (setLoopRegionT st en t).sampleRate = t.sampleRate ∧
    (setLoopRegionT st en t).buf = t.buf ∧
    st ≤ (setLoopRegionT st en t).currentPosition ∧
    (setLoopRegionT st en t).currentPosition ≤ en := by
  unfold setLoopRegionT
  rw [if_pos hc]
  by_cases hsnap : t.currentPosition < st ∨ en < t.currentPosition
  · rw [if_pos hsnap]
    exact ⟨rfl, rfl, rfl, rfl, rfl, le_refl _, le_of_lt hc.2.1⟩
  · rw [if_neg hsnap]
    push_neg at hsnap
    exact ⟨rfl, rfl, rfl, rfl, rfl, hsnap.1, hsnap.2⟩

/-- C4 (amended): for every track, valid region (0 <= start < end <= duration)
and positive sample rate, after `setLoopRegion(start, end)` every subsequent
sequence of renderBlock (processBlock) calls — direct or stretched mode,
looping or not, with arbitrary stretch-primitive behaviour — only reads
source frame indices r with `floor(start*sampleRate) <= r < end*sampleRate`.
(The claim's stated lower bound `start*sampleRate` itself fails when
`start*sampleRate` is fractional, since the code maps the region start with a
truncating int cast; see the counterexample.) -/
theorem c4_reads_within_floor_region (t0 : Track) (st en : ℚ) (calls : List RenderCall)
    (hsr : 0 < t0.sampleRate)
    (hvalid : 0 ≤ st ∧ st < en ∧ en ≤ durationT t0) :
    ∀ r ∈ seqReads calls (setLoopRegionT st en t0),
      cppInt (st * t0.sampleRate) ≤ r ∧ (r : ℚ) < en * t0.sampleRate := by
  obtain ⟨hreg, hls, hle, hsr2, hbuf, hpos1, hpos2⟩ := setLoopRegionT_accepted t0 st en hvalid
  have hcur : cppInt ((setLoopRegionT st en t0).loopStartTime *
      (setLoopRegionT st en t0).sampleRate) ≤
      cppInt ((setLoopRegionT st en t0).currentPosition *
        (setLoopRegionT st en t0).sampleRate) := by
    rw [hls, hsr2]
    exact cppInt_mono (mul_le_mul_of_nonneg_right hpos1 (le_of_lt hsr))
  have hall := seqReads_bounded calls (setLoopRegionT st en t0) hreg
    (by rw [hls, hle]; exact hvalid.2.1) (by rw [hsr2]; exact hsr) hcur
  intro r hr
  have h := hall r hr
  rw [hls, hle, hsr2, hbuf] at h
  refine ⟨h.1, ?_⟩
  have h2 : r < cppInt (en * t0.sampleRate) := lt_of_lt_of_le h.2 (min_le_left _ _)
  have h3 : (r : ℚ) < (cppInt (en * t0.sampleRate) : ℚ) := by exact_mod_cast h2
  have h4 : (cppInt (en * t0.sampleRate) : ℚ) ≤ en * t0.sampleRate :=
    cppInt_le _ (mul_nonneg (le_trans hvalid.1 (le_of_lt hvalid.2.1)) (le_of_lt hsr))
  linarith

/-- C4, counterexample to the claim as stated: region (0.55, 1.0) on a 1 s
track at 10 Hz is valid, yet the very first renderBlock call reads source
index 5, and 5 < 0.55 * 10 = 5.5 — a mapped source index outside
[start*sampleRate, end*sampleRate). -/
theorem c4_fractional_boundary_counterexample :
    (0 ≤ (11/20:ℚ) ∧ (11/20:ℚ) < 1 ∧ (1:ℚ) ≤ durationT exTrack) ∧
    (5:ℤ) ∈ (processBlock exRecv (setLoopRegionT (11/20) 1 exTrack) exOut 0 2).reads ∧
    ((5:ℚ) < (11/20) * exTrack.sampleRate) := by
  have h55 : cppInt (11/2) = 5 := cppInt_eq_of (11/2) 5 (by norm_num) (by norm_num) (by norm_num)
  have h10 : cppInt 10 = 10 := cppInt_eq_of 10 10 (by norm_num) (by norm_num) (by norm_num)
  refine ⟨⟨by norm_num, by norm_num, by norm_num [durationT, durationOf, exTrack, exBuf10]⟩, ?_, by norm_num [exTrack]⟩
  norm_num [setLoopRegionT, processBlock, processDirectPlayback, preWrapDirect,
    activeRegion, durationT, durationOf, exTrack, exBuf10, exOut, exRecv, mkNoop,
    h55, h10, List.range_succ]

/-- Witness for C4 at a concrete valid region and a single call. -/
theorem c4_witness :
    (0 < exTrack.sampleRate ∧ (0 ≤ (1/2:ℚ) ∧ (1/2:ℚ) < 1 ∧ (1:ℚ) ≤ durationT exTrack)) ∧
    (∀ r ∈ seqReads [(exRecv, exOut, 0, 2)] (setLoopRegionT (1/2) 1 exTrack),
      cppInt ((1/2) * exTrack.sampleRate) ≤ r ∧ (r:ℚ) < 1 * exTrack.sampleRate) := by
  have h1 : (0:ℚ) < exTrack.sampleRate := by norm_num [exTrack]
  have h2 : 0 ≤ (1/2:ℚ) ∧ (1/2:ℚ) < 1 ∧ (1:ℚ) ≤ durationT exTrack := by
    norm_num [durationT, durationOf, exTrack, exBuf10]
  exact ⟨⟨h1, h2⟩, c4_reads_within_floor_region exTrack (1/2) 1 [(exRecv, exOut, 0, 2)] h1 h2⟩

/-- C7: when `playing` is false, the mix callback leaves the whole session —
every track and the play position — untouched and the output's active region
is entirely silence (the buffer is cleared and returned before any track or
metronome processing); while playing, the play position advances by exactly
numSamples / sampleRate per callback (with the session's hardcoded 44100 Hz
rate). -/
theorem c7_silence_when_stopped (sine : ℚ → ℚ) (recv : Recv) (s : Session)
    (buffer : AudioBuffer) (startSample n : ℤ) :
    (s.isPlaying = false →
      mixBlock sine recv s buffer startSample n = (s, clearRegionBuf buffer startSample n) ∧
      (∀ ch i, startSample ≤ i → i < startSample + n →
        (mixBlock sine recv s buffer startSample n).2.data ch i = 0)) ∧
    (s.isPlaying = true →
      (mixBlock sine recv s buffer startSample n).1.currentPlayPosition =
        s.currentPlayPosition + (n : ℚ) / 44100) := by
  constructor
  · intro hp
    have hcond : ¬ s.isPlaying = true := by simp [hp]
    constructor
    · unfold mixBlock
      rw [if_pos hcond]
    · intro ch i h1 h2
      unfold mixBlock
      rw [if_pos hcond]
      simp [clearRegionBuf, h1, h2]
  · intro hp
    unfold mixBlock
    rw [if_neg (by simp [hp] : ¬ ¬ s.isPlaying = true)]

/-- Witness for C7: a concrete stopped callback and a concrete playing one. -/
theorem c7_witness :
    exSession.isPlaying = false ∧
    mixBlock exSine exRecv exSession exOut 0 4 = (exSession, clearRegionBuf exOut 0 4) ∧
    exSessionP.isPlaying = true ∧
    (mixBlock exSine exRecv exSessionP exOut 0 4).1.currentPlayPosition =
      exSessionP.currentPlayPosition + (4:ℚ)/44100 :=
  ⟨rfl, ((c7_silence_when_stopped exSine exRecv exSession exOut 0 4).1 rfl).1, rfl,
    (c7_silence_when_stopped exSine exRecv exSessionP exOut 0 4).2 rfl⟩

theorem cppClamp_id (lo hi v : ℚ) (h1 : lo ≤ v) (h2 : v ≤ hi) : cppClamp lo hi v = v := by
  unfold cppClamp
  rw [if_neg (not_lt.mpr h1), if_neg (not_lt.mpr h2)]

theorem scaleStretchRatioT_one (t : Track)
    (h1 : 1/4 ≤ t.stretchRatio) (h2 : t.stretchRatio ≤ 4) :
    scaleStretchRatioT 1 t = t := by
  unfold scaleStretchRatioT
  rw [mul_one, cppClamp_id _ _ _ h1 h2]
  simp

theorem scaleStretchRatioT_mem (f : ℚ) (t : Track)
    (h : 1/4 ≤ t.stretchRatio ∧ t.stretchRatio ≤ 4) :
    1/4 ≤ (scaleStretchRatioT f t).stretchRatio ∧
      (scaleStretchRatioT f t).stretchRatio ≤ 4 := by
  unfold scaleStretchRatioT
  dsimp only
  by_cases hc : 1/1000 < |cppClamp (1/4) 4 (t.stretchRatio * f) - t.stretchRatio|
  · rw [if_pos hc]
    exact cppClamp_mem _ _ _ (by norm_num)
  · rw [if_neg hc]
    exact h

theorem setTempoS_ratio_inv (bpm : ℚ) (s : Session)
    (hinv : ∀ t ∈ s.tracks, 1/4 ≤ t.stretchRatio ∧ t.stretchRatio ≤ 4) :
    ∀ t ∈ (setTempoS bpm s).tracks, 1/4 ≤ t.stretchRatio ∧ t.stretchRatio ≤ 4 := by
  intro t' ht'
  simp only [setTempoS, List.map_map, List.mem_map, Function.comp] at ht'
  obtain ⟨t, ht, rfl⟩ := ht'
  have hr : (setMasterBPMT bpm (if isLoadedT t then
      scaleStretchRatioT (bpm / s.previousMasterTempo) t else t)).stretchRatio =
    (if isLoadedT t then
      scaleStretchRatioT (bpm / s.previousMasterTempo) t else t).stretchRatio := rfl
  rw [hr]
  by_cases hl : isLoadedT t = true
  · rw [if_pos hl]
    exact scaleStretchRatioT_mem _ t (hinv t ht)
  · rw [if_neg hl]
    exact hinv t ht

theorem setTempoS_prev_noop (s' : Session) (hM : s'.previousMasterTempo ≠ 0)
    (hinv : ∀ t ∈ s'.tracks, 1/4 ≤ t.stretchRatio ∧ t.stretchRatio ≤ 4) :
    (setTempoS s'.previousMasterTempo s').tracks.map (fun t => t.stretchRatio) =
      s'.tracks.map (fun t => t.stretchRatio) := by
  unfold setTempoS
  rw [div_self hM]
  rw [List.map_map, List.map_map]
  apply List.map_congr_left
  intro t ht
  have hr : ∀ u : Track, (setMasterBPMT s'.previousMasterTempo u).stretchRatio =
      u.stretchRatio := fun u => rfl
  show (fun u => u.stretchRatio) ((setMasterBPMT s'.previousMasterTempo)
      ((fun u => if isLoadedT u then scaleStretchRatioT 1 u else u) t)) = t.stretchRatio
  dsimp only
  rw [hr]
  by_cases hl : isLoadedT t = true
  · rw [if_pos hl, scaleStretchRatioT_one t (hinv t ht).1 (hinv t ht).2]
  · rw [if_neg hl]

/-- C2, counterexample: in a fresh session (masterTempo = previousMasterTempo
= 120) holding one loaded track with stretchRatio 1, calling setTempo(150)
then setTempo(120) leaves the track's stretchRatio at 5/4, not 1: the first
call scales by 150/120, and the second call's scale factor is
120 / previousMasterTempo = 120/120 = 1 (setTempo divides by
previousMasterTempo, which the first call set to the *old* masterTempo), so
nothing is undone. -/
theorem c2_roundtrip_counterexample :
    exSession.masterTempo = 120 ∧
    exSession.tracks.map (fun t => t.stretchRatio) = [1] ∧
    (setTempoS 120 (setTempoS 150 exSession)).tracks.map (fun t => t.stretchRatio)
      = [5/4] ∧
    ([(5/4 : ℚ)] : List ℚ) ≠ [1] := by
  have habs1 : |(1:ℚ)/4| = 1/4 := abs_of_nonneg (by norm_num)
  refine ⟨rfl, by norm_num [exSession, exTrack], ?_, by norm_num⟩
  norm_num [setTempoS, scaleStretchRatioT, setMasterBPMT, isLoadedT, cppClamp,
    exSession, exTrack, exBuf10, habs1]

/-- C2 (amended): setTempo(X) followed by setTempo(M), where M is the master
tempo in effect before the first call, does NOT restore the stretch ratios:
the second call's scale factor is M / previousMasterTempo = M / M = 1 (the
first call sets previousMasterTempo to M), so the second call leaves every
track's stretchRatio exactly as the first call left it; the pair is
equivalent to setTempo(X) alone as far as stretch ratios are concerned.
(Stated for sessions whose track ratios satisfy the [0.25, 4] clamp
invariant and with a nonzero master tempo.) -/
theorem c2_second_settempo_ratio_noop (s : Session) (x : ℚ)
    (hM : s.masterTempo ≠ 0)
    (hinv : ∀ t ∈ s.tracks, 1/4 ≤ t.stretchRatio ∧ t.stretchRatio ≤ 4) :
    (setTempoS s.masterTempo (setTempoS x s)).tracks.map (fun t => t.stretchRatio) =
      (setTempoS x s).tracks.map (fun t => t.stretchRatio) := by
  have hprev : (setTempoS x s).previousMasterTempo = s.masterTempo := rfl
  have h := setTempoS_prev_noop (setTempoS x s) (by rw [hprev]; exact hM)
    (setTempoS_ratio_inv x s hinv)
  rw [hprev] at h
  exact h

/-- Witness for C2's amended statement at the concrete session. -/
theorem c2_witness :
    (exSession.masterTempo ≠ 0 ∧
      (∀ t ∈ exSession.tracks, 1/4 ≤ t.stretchRatio ∧ t.stretchRatio ≤ 4)) ∧
    (setTempoS exSession.masterTempo (setTempoS 150 exSession)).tracks.map
        (fun t => t.stretchRatio) =
      (setTempoS 150 exSession).tracks.map (fun t => t.stretchRatio) := by
  have h1 : exSession.masterTempo ≠ 0 := by norm_num [exSession]
  have h2 : ∀ t ∈ exSession.tracks, 1/4 ≤ t.stretchRatio ∧ t.stretchRatio ≤ 4 := by
    intro t ht
    simp only [exSession, List.mem_singleton] at ht
    subst ht
    norm_num [exTrack]
  exact ⟨⟨h1, h2⟩, c2_second_settempo_ratio_noop exSession 150 h1 h2⟩

theorem setStretchRatioT_mem (q : ℚ) (t : Track)
    (h : 1/4 ≤ t.stretchRatio ∧ t.stretchRatio ≤ 4) :
    1/4 ≤ (setStretchRatioT q t).stretchRatio ∧ (setStretchRatioT q t).stretchRatio ≤ 4 := by
  unfold setStretchRatioT
  dsimp only
  by_cases hc : 1/1000 < |cppClamp (1/4) 4 q - t.stretchRatio|
  · rw [if_pos hc]
    exact cppClamp_mem _ _ _ (by norm_num)
  · rw [if_neg hc]
    exact h

theorem autoSyncToMasterT_mem (t : Track)
    (h : 1/4 ≤ t.stretchRatio ∧ t.stretchRatio ≤ 4) :
    1/4 ≤ (autoSyncToMasterT t).stretchRatio ∧ (autoSyncToMasterT t).stretchRatio ≤ 4 := by
  unfold autoSyncToMasterT
  by_cases hc : 0 < t.detectedBPM ∧ 0 < t.masterBPM
  · rw [if_pos hc]
    exact setStretchRatioT_mem _ t h
  · rw [if_neg hc]
    exact h

theorem mapWithIdxFrom_forall (P : Track → Prop) (f : ℕ → Track → Track) (k : ℕ)
    (l : List Track) (hf : ∀ j t, P t → P (f j t)) (hl : ∀ t ∈ l, P t) :
    ∀ t ∈ mapWithIdxFrom f k l, P t := by
  induction l generalizing k with
  | nil =>
    intro t ht
    simp [mapWithIdxFrom] at ht
  | cons a as ih =>
    intro t ht
    simp only [mapWithIdxFrom, List.mem_cons] at ht
    rcases ht with rfl | ht
    · exact hf k a (hl a (List.mem_cons_self a as))
    · exact ih (k+1) (fun u hu => hl u (List.mem_cons_of_mem a hu)) t ht

theorem setInitialMasterBPMS_ratio_inv (bpm : ℚ) (idx : Option ℕ) (s : Session)
    (hinv : ∀ t ∈ s.tracks, 1/4 ≤ t.stretchRatio ∧ t.stretchRatio ≤ 4) :
    ∀ t ∈ (setInitialMasterBPMS bpm idx s).tracks,
      1/4 ≤ t.stretchRatio ∧ t.stretchRatio ≤ 4 := by
  intro t' ht'
  unfold setInitialMasterBPMS mapWithIdx at ht'
  refine mapWithIdxFrom_forall (fun u => 1/4 ≤ u.stretchRatio ∧ u.stretchRatio ≤ 4)
    _ 0 s.tracks ?_ hinv t' ht'
  intro j t ht
  by_cases hj : idx = some j
  · rw [if_pos hj]
    exact setStretchRatioT_mem 1 t ht
  · rw [if_neg hj]
    exact ht

theorem updateTrackAt_ratio_inv (i : ℕ) (f : Track → Track) (s : Session)
    (hf : ∀ t, 1/4 ≤ t.stretchRatio ∧ t.stretchRatio ≤ 4 →
      1/4 ≤ (f t).stretchRatio ∧ (f t).stretchRatio ≤ 4)
    (hinv : ∀ t ∈ s.tracks, 1/4 ≤ t.stretchRatio ∧ t.stretchRatio ≤ 4) :
    ∀ t ∈ (updateTrackAt i f s).tracks, 1/4 ≤ t.stretchRatio ∧ t.stretchRatio ≤ 4 := by
  intro t' ht'
  unfold updateTrackAt mapWithIdx at ht'
  refine mapWithIdxFrom_forall (fun u => 1/4 ≤ u.stretchRatio ∧ u.stretchRatio ≤ 4)
    _ 0 s.tracks ?_ hinv t' ht'
  intro j t ht
  by_cases hj : j = i
  · rw [if_pos hj]
    exact hf t ht
  · rw [if_neg hj]
    exact ht

theorem applyCmd_ratio_inv (c : TrackCmd) (s : Session)
    (hinv : ∀ t ∈ s.tracks, 1/4 ≤ t.stretchRatio ∧ t.stretchRatio ≤ 4) :
    ∀ t ∈ (applyCmd c s).tracks, 1/4 ≤ t.stretchRatio ∧ t.stretchRatio ≤ 4 := by
  cases c with
  | setStretch i q => exact updateTrackAt_ratio_inv i _ s (setStretchRatioT_mem q) hinv
  | scaleStretch i q => exact updateTrackAt_ratio_inv i _ s (scaleStretchRatioT_mem q) hinv
  | tempoCmd q => exact setTempoS_ratio_inv q s hinv
  | initialCmd q i => exact setInitialMasterBPMS_ratio_inv q i s hinv
  | autoSyncCmd i => exact updateTrackAt_ratio_inv i _ s autoSyncToMasterT_mem hinv

theorem applyCmds_ratio_inv (cmds : List TrackCmd) (s : Session)
    (hinv : ∀ t ∈ s.tracks, 1/4 ≤ t.stretchRatio ∧ t.stretchRatio ≤ 4) :
    ∀ t ∈ (applyCmds cmds s).tracks, 1/4 ≤ t.stretchRatio ∧ t.stretchRatio ≤ 4 := by
  induction cmds generalizing s with
  | nil => exact hinv
  | cons c cs ih => exact ih (applyCmd c s) (applyCmd_ratio_inv c s hinv)

/-- C3: starting from tracks whose stretchRatio is 1.0, after any finite
sequence of setStretchRatio, scaleStretchRatio, setTempo, setInitialMasterBPM
and autoSyncToMaster calls, every track's stretchRatio lies in [0.25, 4.0]
(every path that writes the field clamps through jlimit(0.25, 4.0, x)). -/
theorem c3_stretch_ratio_clamped (cmds : List TrackCmd) (s : Session)
    (hstart : ∀ t ∈ s.tracks, t.stretchRatio = 1) :
    ∀ t ∈ (applyCmds cmds s).tracks,
      1/4 ≤ t.stretchRatio ∧ t.stretchRatio ≤ 4 := by
  apply applyCmds_ratio_inv
  intro t ht
  rw [hstart t ht]
  norm_num

/-- Witness for C3 at a concrete command sequence. -/
theorem c3_witness :
    (∀ t ∈ exSession.tracks, t.stretchRatio = 1) ∧
    (∀ t ∈ (applyCmds [TrackCmd.setStretch 0 10, TrackCmd.tempoCmd 300,
        TrackCmd.autoSyncCmd 0, TrackCmd.scaleStretch 0 (1/100)] exSession).tracks,
      1/4 ≤ t.stretchRatio ∧ t.stretchRatio ≤ 4) := by
  have h1 : ∀ t ∈ exSession.tracks, t.stretchRatio = 1 := by
    intro t ht
    simp only [exSession, List.mem_singleton] at ht
    subst ht
    rfl
  exact ⟨h1, c3_stretch_ratio_clamped _ exSession h1⟩

theorem mapWithIdxFrom_getD (f : ℕ → Track → Track) (k : ℕ) (l : List Track) (j : ℕ)
    (hj : j < l.length) (d : Track) :
    (mapWithIdxFrom f k l).getD j d = f (k + j) (l.getD j d) := by
  induction l generalizing k j with
  | nil => simp at hj
  | cons a as ih =>
    cases j with
    | zero => rfl
    | succ j2 =>
      have h2 : j2 < as.length := by simpa using hj
      show (mapWithIdxFrom f (k+1) as).getD j2 d = _
      rw [ih (k+1) j2 h2]
      have : k + 1 + j2 = k + (j2 + 1) := by omega
      rw [this]
      rfl

theorem setStretchRatioT_one_of (t : Track) (hr : t.stretchRatio = 1) :
    setStretchRatioT 1 t = t := by
  unfold setStretchRatioT
  rw [cppClamp_id _ _ _ (by norm_num) (by norm_num), hr]
  simp

/-- C8: when a track finishes loading as the only loaded track in the session
and its detected BPM is positive, `onTrackLoaded` sets the master tempo to
that BPM directly (via setInitialMasterBPM, not the rescale path), keeps that
track's stretchRatio at 1.0 (loadAudioFile has just reset it to 1.0 — line
4986 — and setStretchRatio(1.0) then leaves it there), pushes the new master
BPM to every track's masterBPM reference, and changes no other track's
stretchRatio. -/
theorem c8_first_load_sets_master (s : Session) (i : ℕ) (bpm : ℚ)
    (hone : loadedIdxs s = [i]) (hbpm : 0 < bpm)
    (hr : (s.tracks.getD i defaultTrack).stretchRatio = 1) :
    (onTrackLoadedS bpm s).masterTempo = bpm ∧
    ((onTrackLoadedS bpm s).tracks.getD i defaultTrack).stretchRatio = 1 ∧
    (∀ j, j < s.tracks.length →
      ((onTrackLoadedS bpm s).tracks.getD j defaultTrack).masterBPM = bpm) ∧
    (∀ j, j < s.tracks.length → j ≠ i →
      ((onTrackLoadedS bpm s).tracks.getD j defaultTrack).stretchRatio =
        (s.tracks.getD j defaultTrack).stretchRatio) := by
  have hi : i < s.tracks.length := by
    have hmem : i ∈ loadedIdxs s := by
      rw [hone]
      exact List.mem_singleton_self i
    unfold loadedIdxs at hmem
    exact List.mem_range.mp (List.mem_of_mem_filter hmem)
  have hcond : (loadedIdxs s).length = 1 ∧ 0 < bpm ∧ (loadedIdxs s).getLast?.isSome := by
    rw [hone]
    exact ⟨rfl, hbpm, rfl⟩
  have hlast : (loadedIdxs s).getLast? = some i := by
    rw [hone]
    rfl
  unfold onTrackLoadedS
  rw [if_pos hcond, hlast]
  unfold setInitialMasterBPMS mapWithIdx
  refine ⟨rfl, ?_, ?_, ?_⟩
  · show ((mapWithIdxFrom _ 0 s.tracks).getD i defaultTrack).stretchRatio = 1
    rw [mapWithIdxFrom_getD _ 0 s.tracks i hi]
    have h0 : (some i : Option ℕ) = some (0 + i) := by
      rw [Nat.zero_add]
    rw [if_pos h0]
    show (setMasterBPMT bpm (setStretchRatioT 1 (s.tracks.getD i defaultTrack))).stretchRatio = 1
    rw [setStretchRatioT_one_of _ hr]
    exact hr
  · intro j hj
    show ((mapWithIdxFrom _ 0 s.tracks).getD j defaultTrack).masterBPM = bpm
    rw [mapWithIdxFrom_getD _ 0 s.tracks j hj]
    by_cases heq : (some i : Option ℕ) = some (0 + j)
    · rw [if_pos heq]
      rfl
    · rw [if_neg heq]
      rfl
  · intro j hj hne
    show ((mapWithIdxFrom _ 0 s.tracks).getD j defaultTrack).stretchRatio = _
    rw [mapWithIdxFrom_getD _ 0 s.tracks j hj]
    have heq : ¬ (some i : Option ℕ) = some (0 + j) := by
      simp only [Option.some.injEq, Nat.zero_add]
      omega
    rw [if_neg heq]
    rfl

/-- Witness for C8 at the concrete one-loaded-track session with BPM 100. -/
theorem c8_witness :
    (loadedIdxs exSessionC8 = [0] ∧ (0:ℚ) < 100 ∧
      (exSessionC8.tracks.getD 0 defaultTrack).stretchRatio = 1) ∧
    (onTrackLoadedS 100 exSessionC8).masterTempo = 100 ∧
    ((onTrackLoadedS 100 exSessionC8).tracks.getD 0 defaultTrack).stretchRatio = 1 ∧
    (∀ j, j < exSessionC8.tracks.length →
      ((onTrackLoadedS 100 exSessionC8).tracks.getD j defaultTrack).masterBPM = 100) := by
  have h1 : loadedIdxs exSessionC8 = [0] := by decide
  have h2 : (0:ℚ) < 100 := by norm_num
  have h3 : (exSessionC8.tracks.getD 0 defaultTrack).stretchRatio = 1 := rfl
  have h := c8_first_load_sets_master exSessionC8 0 100 h1 h2 h3
  exact ⟨⟨h1, h2, h3⟩, h.1, h.2.1, h.2.2.1⟩
